import Mathlib

/-!
# Frame writer of bap-pintraces (`bpt_writer_frames.cpp`)

A shallow embedding of the frame writer: the accumulator for the open
instruction frame (`std_frame_element`), the visitor methods of
`writer_frames`, the teardown of `writer_frames::impl`, and the assembly of
the session metadata (`meta::create`).

Conventions of the embedding

* C++ objects that are mutated in place become values that are passed in and
  returned.
* A C++ call that can throw returns an `outcome`: the state the object is left
  in, together with the failure that was raised, if any.
* Undefined behaviour (the dereference of the empty `std_frame` pointer) ends
  the run with a failure of its own; nothing is stated of the program after it.
* Addresses, thread ids and system call numbers are copied verbatim into wider
  fields of the trace messages, so they are natural numbers here.
* Operand widths are the `int` of the source; byte counts stay far below the
  range of `size_t`, so `8 * data.size()` is computed in the integers.
* An argument vector is the list of its tokens; the cell after the last token
  is the terminating null pointer, and a read beyond that cell is a failure.
-/

namespace bpt

/-! ## Values supplied by the event layer -/

/-- Modelled from the spec: `bytes_type` of `bpt_events.hpp`, the raw value
bytes of an operand or an instruction. -/
abbrev bytes_type := List UInt8

/-- Modelled from the spec: machine address type `ADDRINT` of the
instrumentation layer. -/
abbrev ADDRINT := Nat

/-- Modelled from the spec: thread identifier type of the instrumentation
layer. -/
abbrev THREADID := Nat

/-- Modelled from the spec: effect bit `RD` of `bpt_events.hpp`, the flag is
readable. -/
def RD : Nat := 1

/-- Modelled from the spec: effect bit `WR` of `bpt_events.hpp`, the flag is
writable. -/
def WR : Nat := 2

/-- Modelled from the spec: the `flag` record of `bpt_events.hpp` (section 3,
Flag): a name, a bit width, an effect mask and an extractor from the raw bytes
of the flags register to the value of the flag. -/
structure flag where
  name : String
  width : Int
  effect : Nat
  value : bytes_type → Nat

/-- Modelled from the spec: `operation_event` of `bpt_events.hpp`
(OperationStart). -/
structure operation_event where
  addr : ADDRINT
  tid : THREADID
  bytes : bytes_type

/-- Modelled from the spec: `register_event` of `bpt_events.hpp`, the common
base of the register read and write events. -/
structure register_event where
  name : String
  bytes : bytes_type
  width : Int

/-- Modelled from the spec: `memory_event` of `bpt_events.hpp`, the common
base of the memory load and store events. -/
structure memory_event where
  addr : ADDRINT
  bytes : bytes_type

/-- Modelled from the spec: the flags events of `bpt_events.hpp`: the flag
table of the architecture and the raw bytes of the flags register. -/
structure flags_event where
  flags : List flag
  bytes : bytes_type

/-- Modelled from the spec: `modload_event` of `bpt_events.hpp`. -/
structure modload_event where
  name : String
  low : ADDRINT
  high : ADDRINT

/-- Modelled from the spec: `syscall_event` of `bpt_events.hpp`. -/
structure syscall_event where
  addr : ADDRINT
  tid : THREADID
  number : Nat
  args : List ADDRINT

/-- Modelled from the spec: the event variants of section 3.  Every
constructor but `other` has a `visit` overload of its own in
`writer_frames`; `other` stands for every remaining event class, which
reaches `visit(const event&)`, and carries the text the event prints as. -/
inductive event where
  | operation (e : operation_event)
  | read (e : register_event)
  | write (e : register_event)
  | load (e : memory_event)
  | store (e : memory_event)
  | read_flags (e : flags_event)
  | write_flags (e : flags_event)
  | modload (e : modload_event)
  | syscall (e : syscall_event)
  | other (text : String)

/-! ## Trace messages (generated from the frame schema of libtrace) -/

/-- Modelled from the spec: message `operand_usage` of the frame schema. -/
structure operand_usage where
  read : Bool
  written : Bool
  index : Bool
  base : Bool
deriving DecidableEq, Repr

/-- Modelled from the spec: message `mem_operand` of the frame schema. -/
structure mem_operand where
  address : Nat
deriving DecidableEq, Repr

/-- Modelled from the spec: message `reg_operand` of the frame schema. -/
structure reg_operand where
  name : String
deriving DecidableEq, Repr

/-- Modelled from the spec: message `operand_info_specific` of the frame
schema; each alternative is an optional sub-message that is absent until it is
first requested through its `mutable_` accessor. -/
structure operand_info_specific where
  mem_operand : Option bpt.mem_operand
  reg_operand : Option bpt.reg_operand
deriving DecidableEq, Repr

/-- Modelled from the spec: message `taint_info` of the frame schema. -/
structure taint_info where
  no_taint : Bool
deriving DecidableEq, Repr

/-- Modelled from the spec: message `operand_info` of the frame schema
(section 3, OperandDescriptor). -/
structure operand_info where
  operand_info_specific : bpt.operand_info_specific
  bit_length : Int
  operand_usage : bpt.operand_usage
  taint_info : bpt.taint_info
  value : bytes_type
deriving DecidableEq, Repr

/-- Modelled from the spec: message `operand_value_list` of the frame schema,
a repeated field `elem`. -/
structure operand_value_list where
  elem : List operand_info
deriving DecidableEq, Repr

/-- Modelled from the spec: message `std_frame` of the frame schema
(section 3, InstructionFrame). -/
structure std_frame where
  address : Nat
  thread_id : Nat
  rawbytes : bytes_type
  operand_pre_list : operand_value_list
  operand_post_list : operand_value_list
deriving DecidableEq, Repr

/-- Modelled from the spec: message `argument_list` of the frame schema. -/
structure argument_list where
  elem : List Nat
deriving DecidableEq, Repr

/-- Modelled from the spec: message `syscall_frame` of the frame schema
(section 3, SyscallFrame). -/
structure syscall_frame where
  address : Nat
  thread_id : Nat
  number : Nat
  argument_list : bpt.argument_list
deriving DecidableEq, Repr

/-- Modelled from the spec: message `modload_frame` of the frame schema
(section 3, ModuleLoadFrame). -/
structure modload_frame where
  module_name : String
  low_address : Nat
  high_address : Nat
deriving DecidableEq, Repr

/-- Modelled from the spec: message `frame` of the frame schema; of its
optional sub-messages the writer touches these three. -/
structure frame where
  std_frame : Option bpt.std_frame
  syscall_frame : Option bpt.syscall_frame
  modload_frame : Option bpt.modload_frame
deriving DecidableEq, Repr

/-- A default-constructed `::frame`: no sub-message is present. -/
def frame.empty : frame := ⟨none, none, none⟩

/-- A default-constructed `::std_frame`. -/
def std_frame.empty : std_frame := ⟨0, 0, [], ⟨[]⟩, ⟨[]⟩⟩

/-- A default-constructed `::operand_info_specific`. -/
def operand_info_specific.empty : operand_info_specific := ⟨none, none⟩

/-- The accessor `frame::mutable_std_frame`: the sub-message, created empty
when absent. -/
def frame.mutable_std_frame (frm : frame) : bpt.std_frame :=
  frm.std_frame.getD std_frame.empty

/-- The accessor `frame::mutable_syscall_frame`. -/
def frame.mutable_syscall_frame (frm : frame) : bpt.syscall_frame :=
  frm.syscall_frame.getD ⟨0, 0, 0, ⟨[]⟩⟩

/-- The accessor `frame::mutable_modload_frame`. -/
def frame.mutable_modload_frame (frm : frame) : bpt.modload_frame :=
  frm.modload_frame.getD ⟨"", 0, 0⟩

/-- The method `operand_value_list::add_elem`: a new last element. -/
def operand_value_list.add_elem (ovl : operand_value_list) (oi : operand_info) :
    operand_value_list :=
  ⟨ovl.elem ++ [oi]⟩

/-- The method `argument_list::add_elem`: a new last element. -/
def argument_list.add_elem (al : argument_list) (a : Nat) : argument_list :=
  ⟨al.elem ++ [a]⟩

/-- Applies `f` to the last element of a list: a write through a pointer to
the element most recently added. -/
def update_last {α : Type} (f : α → α) : List α → List α
  | [] => []
  | [x] => [f x]
  | x :: y :: rest => x :: update_last f (y :: rest)

/-! ## Failures and the trace container -/

/-- The ways a call into the writer can end other than by returning. -/
inductive failure where
  /-- The empty pointer `std_frame` was dereferenced.  The source does not
  test the pointer on this path, so the behaviour of the program is undefined
  from here on (a build with assertions aborts inside `scoped_ptr`): the
  embedding ends the run at this point, and the state it reports is the writer
  as it was before the dereference, not a state of the program afterwards. -/
  | undefined_dereference
  /-- The trace container raised an exception. -/
  | sink_failure
deriving DecidableEq, Repr

/-- The state an object is left in by a call, and the failure the call raised,
if any. -/
structure outcome (σ : Type) where
  state : σ
  thrown : Option failure

/-- Modelled from the spec: the trace container `TraceContainerWriter` of
libtrace (section 6, Trace Sink).  `frames` is the ordered store; `faults`
scripts the coming `add` calls, `true` marking a call on which the store is
unwritable (a script that has run out accepts); `finish_fault` tells whether
closing fails. -/
structure container_type where
  frames : List frame
  faults : List Bool
  finish_fault : Bool
  finished : Bool
deriving DecidableEq, Repr

/-- Modelled from the spec: `Sink.append(frame)`, which fails with an I/O
error if the underlying store is unwritable. -/
def container_type.add (c : container_type) (f : frame) : outcome container_type :=
  match c.faults with
  | true :: rest => ⟨{ c with faults := rest }, some failure.sink_failure⟩
  | false :: rest => ⟨{ c with frames := c.frames ++ [f], faults := rest }, none⟩
  | [] => ⟨{ c with frames := c.frames ++ [f] }, none⟩

/-- Modelled from the spec: `Sink.close()`. -/
def container_type.finish (c : container_type) : outcome container_type :=
  if c.finish_fault then ⟨c, some failure.sink_failure⟩
  else ⟨{ c with finished := true }, none⟩

/-- The next `add` call is accepted by the store. -/
def container_type.accepts (c : container_type) : Prop :=
  c.faults.head? ≠ some true

/-- Every coming `add` call is accepted by the store. -/
def container_type.reliable (c : container_type) : Prop :=
  ∀ b ∈ c.faults, b = false

instance (c : container_type) : Decidable c.accepts :=
  inferInstanceAs (Decidable (c.faults.head? ≠ some true))

instance (c : container_type) : Decidable c.reliable :=
  inferInstanceAs (Decidable (∀ b ∈ c.faults, b = false))

/-! ## The accumulator of the open instruction frame -/

/-- The enumeration `std_frame_element::usage`. -/
inductive usage where
  | R
  | W
deriving DecidableEq, Repr

/-- The operand list of a `std_frame` that `create_operand` selects for a
usage: the pre list for `R`, the post list for `W`. -/
def std_frame.operand_list (sf : std_frame) : usage → operand_value_list
  | usage.R => sf.operand_pre_list
  | usage.W => sf.operand_post_list

/-- Stores an operand list back into the place `operand_list` reads. -/
def std_frame.set_operand_list (sf : std_frame) (u : usage) (ovl : operand_value_list) :
    std_frame :=
  match u with
  | usage.R => { sf with operand_pre_list := ovl }
  | usage.W => { sf with operand_post_list := ovl }

/-- The class `std_frame_element`: the frame under construction.  The
reference `cont` of the source is the container of the enclosing `impl`, which
`finish` receives as an argument here. -/
structure std_frame_element where
  frm : frame
deriving DecidableEq, Repr

/-- The constructor `std_frame_element(container_type&, const operation_event&)`. -/
def std_frame_element.create (op : operation_event) : std_frame_element :=
  let frm := frame.empty
  let sf := frm.mutable_std_frame
  let sf := { sf with address := op.addr }
  let sf := { sf with thread_id := op.tid }
  let sf := { sf with rawbytes := op.bytes }
  ⟨{ frm with std_frame := some sf }⟩

/-- The method `create_operand(usage, data, width)`: appends a descriptor to
the list chosen by the usage.  The pointer it returns designates the
`operand_info_specific` of that new last element (see `update_specific`). -/
def std_frame_element.create_operand (s : std_frame_element) (u : usage)
    (data : bytes_type) (width : Int) : std_frame_element :=
  let sf := s.frm.mutable_std_frame
  let ovl := sf.operand_list u
  let oi : operand_info :=
    { operand_info_specific := operand_info_specific.empty
      bit_length := if width = 0 then 8 * (data.length : Int) else width
      operand_usage :=
        { read := decide (u = usage.R)
          written := decide (u = usage.W)
          index := false
          base := false }
      taint_info := { no_taint := true }
      value := data }
  ⟨{ s.frm with std_frame := some (sf.set_operand_list u (ovl.add_elem oi)) }⟩

/-- A write through the pointer returned by `create_operand`: `f` is applied
to the `operand_info_specific` of the last element of the list chosen by the
usage. -/
def std_frame_element.update_specific (s : std_frame_element) (u : usage)
    (f : operand_info_specific → operand_info_specific) : std_frame_element :=
  let sf := s.frm.mutable_std_frame
  let ovl := sf.operand_list u
  let elem := update_last
    (fun oi => { oi with operand_info_specific := f oi.operand_info_specific }) ovl.elem
  ⟨{ s.frm with std_frame := some (sf.set_operand_list u ⟨elem⟩) }⟩

/-- The overload `add(usage, ADDRINT addr, const bytes_type& data)`. -/
def std_frame_element.add_mem (s : std_frame_element) (u : usage) (addr : ADDRINT)
    (data : bytes_type) : std_frame_element :=
  (s.create_operand u data 0).update_specific u
    (fun ois => { ois with mem_operand := some { (ois.mem_operand.getD ⟨0⟩) with address := addr } })

/-- The overload `add(usage, const std::string& name, const bytes_type& data, int width)`. -/
def std_frame_element.add_reg (s : std_frame_element) (u : usage) (name : String)
    (data : bytes_type) (width : Int) : std_frame_element :=
  (s.create_operand u data width).update_specific u
    (fun ois => { ois with reg_operand := some { (ois.reg_operand.getD ⟨""⟩) with name := name } })

/-- The overload `add(usage, const register_event&)`. -/
def std_frame_element.add_register (s : std_frame_element) (u : usage)
    (e : register_event) : std_frame_element :=
  s.add_reg u e.name e.bytes e.width

/-- The overload `add(usage, const memory_event&)`. -/
def std_frame_element.add_memory (s : std_frame_element) (u : usage)
    (e : memory_event) : std_frame_element :=
  s.add_mem u e.addr e.bytes

/-- The overload `add(const read_event&)`. -/
def std_frame_element.add_read (s : std_frame_element) (e : register_event) :
    std_frame_element :=
  s.add_register usage.R e

/-- The overload `add(const write_event&)`. -/
def std_frame_element.add_write (s : std_frame_element) (e : register_event) :
    std_frame_element :=
  s.add_register usage.W e

/-- The overload `add(const load_event&)`. -/
def std_frame_element.add_load (s : std_frame_element) (e : memory_event) :
    std_frame_element :=
  s.add_memory usage.R e

/-- The overload `add(const store_event&)`. -/
def std_frame_element.add_store (s : std_frame_element) (e : memory_event) :
    std_frame_element :=
  s.add_memory usage.W e

/-- The conversion of an extracted flag value to `bytes_type::value_type`. -/
def flag_byte (f : flag) (bytes : bytes_type) : UInt8 :=
  UInt8.ofNat (f.value bytes)

/-- The overload `add(const read_flags_event&)`: the loop over the flag table. -/
def std_frame_element.add_read_flags (s : std_frame_element) (e : flags_event) :
    std_frame_element :=
  e.flags.foldl
    (fun acc f =>
      if f.effect &&& RD ≠ 0 then
        acc.add_reg usage.R f.name (List.replicate 1 (flag_byte f e.bytes)) f.width
      else acc)
    s

/-- The overload `add(const write_flags_event&)`: the loop over the flag table. -/
def std_frame_element.add_write_flags (s : std_frame_element) (e : flags_event) :
    std_frame_element :=
  e.flags.foldl
    (fun acc f =>
      if f.effect &&& WR ≠ 0 then
        acc.add_reg usage.W f.name (List.replicate 1 (flag_byte f e.bytes)) f.width
      else acc)
    s

/-- The method `finish()`: hands the frame to the container. -/
def std_frame_element.finish (s : std_frame_element) (cont : container_type) :
    outcome container_type :=
  cont.add s.frm

/-! ## The writer -/

/-- The structure `writer_frames::impl`: the container and the owning pointer
to the open frame, empty while no instruction is open. -/
structure impl where
  cont : container_type
  std_frame : Option std_frame_element
deriving DecidableEq, Repr

/-- The class `writer_frames` together with the error stream it reports to. -/
structure writer_frames where
  pimpl : impl
  cerr : List String
deriving DecidableEq, Repr

/-- The overload `visit(const event&)`: the event is reported and skipped. -/
def writer_frames.visit_event (w : writer_frames) (text : String) :
    outcome writer_frames :=
  ⟨{ w with cerr := w.cerr ++ ["warning: skipped event " ++ text ++ " in frames protocol"] },
    none⟩

/-- The overload `visit(const modload_event&)`. -/
def writer_frames.visit_modload (w : writer_frames) (e : modload_event) :
    outcome writer_frames :=
  let frm := frame.empty
  let mf := frm.mutable_modload_frame
  let mf := { mf with module_name := e.name }
  let mf := { mf with low_address := e.low }
  let mf := { mf with high_address := e.high }
  let frm := { frm with modload_frame := some mf }
  let r := w.pimpl.cont.add frm
  ⟨{ w with pimpl := { w.pimpl with cont := r.state } }, r.thrown⟩

/-- The overload `visit(const syscall_event&)`. -/
def writer_frames.visit_syscall (w : writer_frames) (e : syscall_event) :
    outcome writer_frames :=
  let frm := frame.empty
  let f := frm.mutable_syscall_frame
  let f := { f with address := e.addr }
  let f := { f with thread_id := e.tid }
  let f := { f with number := e.number }
  let args := e.args.foldl (fun al addr => al.add_elem addr) f.argument_list
  let f := { f with argument_list := args }
  let frm := { frm with syscall_frame := some f }
  let r := w.pimpl.cont.add frm
  ⟨{ w with pimpl := { w.pimpl with cont := r.state } }, r.thrown⟩

/-- The overload `visit(const operation_event&)`: the open frame, if any, is
finished first; when that throws, the `reset` is not reached. -/
def writer_frames.visit_operation (w : writer_frames) (e : operation_event) :
    outcome writer_frames :=
  let r : outcome container_type :=
    match w.pimpl.std_frame with
    | some sf => sf.finish w.pimpl.cont
    | none => ⟨w.pimpl.cont, none⟩
  match r.thrown with
  | some err => ⟨{ w with pimpl := { w.pimpl with cont := r.state } }, some err⟩
  | none =>
    ⟨{ w with pimpl := { cont := r.state, std_frame := some (std_frame_element.create e) } },
      none⟩

/-- The common shape of the six operand overloads `pimpl->std_frame->add(e)`:
the pointer is dereferenced without a test.  While it holds an element, `add`
runs on that element; while it is empty the dereference is undefined
behaviour, which ends the run of the embedding (see
`failure.undefined_dereference`). -/
def writer_frames.with_std_frame (w : writer_frames)
    (f : std_frame_element → std_frame_element) : outcome writer_frames :=
  match w.pimpl.std_frame with
  | none => ⟨w, some failure.undefined_dereference⟩
  | some sf => ⟨{ w with pimpl := { w.pimpl with std_frame := some (f sf) } }, none⟩

/-- The visitor of `writer_frames`: the overload selected by the class of the
event. -/
def writer_frames.visit (w : writer_frames) : event → outcome writer_frames
  | event.operation e => w.visit_operation e
  | event.read e => w.with_std_frame (fun sf => sf.add_read e)
  | event.read_flags e => w.with_std_frame (fun sf => sf.add_read_flags e)
  | event.write e => w.with_std_frame (fun sf => sf.add_write e)
  | event.write_flags e => w.with_std_frame (fun sf => sf.add_write_flags e)
  | event.load e => w.with_std_frame (fun sf => sf.add_load e)
  | event.store e => w.with_std_frame (fun sf => sf.add_store e)
  | event.modload e => w.visit_modload e
  | event.syscall e => w.visit_syscall e
  | event.other text => w.visit_event text

/-- The event producer: `visit` is called once per event, in order, until a
call throws. -/
def writer_frames.visit_all (w : writer_frames) : List event → outcome writer_frames
  | [] => ⟨w, none⟩
  | e :: rest =>
    match (w.visit e).thrown with
    | some err => ⟨(w.visit e).state, some err⟩
    | none => writer_frames.visit_all (w.visit e).state rest

/-- The destructor `impl::~impl()` followed by the destruction of the members:
the open frame is finished, then the container; an exception from either is
reported to the error stream and goes no further. -/
def writer_frames.destroy (w : writer_frames) : writer_frames :=
  let r1 : outcome container_type :=
    match w.pimpl.std_frame with
    | some sf => sf.finish w.pimpl.cont
    | none => ⟨w.pimpl.cont, none⟩
  match r1.thrown with
  | some _ =>
    { pimpl := { cont := r1.state, std_frame := none }
      cerr := w.cerr ++ ["finish failed with:"] }
  | none =>
    let r2 := r1.state.finish
    match r2.thrown with
    | some _ =>
      { pimpl := { cont := r2.state, std_frame := none }
        cerr := w.cerr ++ ["finish failed with:"] }
    | none => { pimpl := { cont := r2.state, std_frame := none }, cerr := w.cerr }

/-! ## Observations used to state the properties -/

/-- The operands accumulated so far in the list of a usage. -/
def std_frame_element.operands (s : std_frame_element) (u : usage) : List operand_info :=
  (s.frm.mutable_std_frame.operand_list u).elem

/-- The events that `visit` forwards to the open frame. -/
def event.is_operand : event → Bool
  | event.read _ => true
  | event.write _ => true
  | event.load _ => true
  | event.store _ => true
  | event.read_flags _ => true
  | event.write_flags _ => true
  | _ => false

/-- The writer of a fresh session: an empty store that accepts every call, no
open frame, nothing reported. -/
def writer_frames.initial : writer_frames :=
  ⟨⟨⟨[], [], false, false⟩, none⟩, []⟩

/-- The open frame of an instruction whose operand lists hold `pre` and
`post`: the shape of every frame the writer builds. -/
def std_frame_element.opened (op : operation_event) (pre post : List operand_info) :
    std_frame_element :=
  ⟨⟨some ⟨op.addr, op.tid, op.bytes, ⟨pre⟩, ⟨post⟩⟩, none, none⟩⟩

/-! ## The specification, in its own words -/

/-- Section 4.1 of the specification: `encode_operand(usage, value_bytes,
declared_bit_width)`, together with the address or register name that the
descriptor carries. -/
def spec.encode_operand (u : usage) (value_bytes : bytes_type) (declared_bit_width : Int)
    (carried : operand_info_specific) : operand_info :=
  { operand_info_specific := carried
    bit_length :=
      if declared_bit_width ≠ 0 then declared_bit_width else 8 * (value_bytes.length : Int)
    operand_usage :=
      { read := decide (u = usage.R)
        written := decide (u = usage.W)
        index := false
        base := false }
    taint_info := { no_taint := true }
    value := value_bytes }

/-- Section 4.1: the descriptor of a memory operand carries the accessed
address and has no declared width. -/
def spec.encode_memory (u : usage) (addr : ADDRINT) (value_bytes : bytes_type) : operand_info :=
  spec.encode_operand u value_bytes 0 ⟨some ⟨addr⟩, none⟩

/-- Section 4.1: the descriptor of a register operand carries the register
name. -/
def spec.encode_register (u : usage) (name : String) (value_bytes : bytes_type)
    (declared_bit_width : Int) : operand_info :=
  spec.encode_operand u value_bytes declared_bit_width ⟨none, some ⟨name⟩⟩

/-- Section 4.2: the effect mask of a flag includes the requested direction. -/
def spec.includes (f : flag) : usage → Bool
  | usage.R => decide (f.effect &&& RD ≠ 0)
  | usage.W => decide (f.effect &&& WR ≠ 0)

/-- Section 4.2 of the specification: `decompose(flags_event, direction)`, the
triples `(name, single_byte_value, width)` of the flags whose effect mask
includes the direction, in table order. -/
def spec.decompose (e : flags_event) (direction : usage) : List (String × UInt8 × Int) :=
  (e.flags.filter (fun f => spec.includes f direction)).map
    (fun f => (f.name, UInt8.ofNat (f.value e.bytes), f.width))

/-- Section 4.3: each extracted flag is encoded as a register operand. -/
def spec.encode_flags (e : flags_event) (direction : usage) : List operand_info :=
  (spec.decompose e direction).map
    (fun t => spec.encode_register direction t.1 [t.2.1] t.2.2)

/-- Section 4.3: the encodings an event contributes to `pre_operands`. -/
def spec.pre_encodings : event → List operand_info
  | event.read e => [spec.encode_register usage.R e.name e.bytes e.width]
  | event.load e => [spec.encode_memory usage.R e.addr e.bytes]
  | event.read_flags e => spec.encode_flags e usage.R
  | _ => []

/-- Section 4.3: the encodings an event contributes to `post_operands`. -/
def spec.post_encodings : event → List operand_info
  | event.write e => [spec.encode_register usage.W e.name e.bytes e.width]
  | event.store e => [spec.encode_memory usage.W e.addr e.bytes]
  | event.write_flags e => spec.encode_flags e usage.W
  | _ => []

/-- Section 3: the instruction frame of an `OperationStart` and the events
that arrived while it was open. -/
def spec.instruction_frame (op : operation_event) (es : List event) : frame :=
  { std_frame := some
      { address := op.addr
        thread_id := op.tid
        rawbytes := op.bytes
        operand_pre_list := ⟨es.flatMap spec.pre_encodings⟩
        operand_post_list := ⟨es.flatMap spec.post_encodings⟩ }
    syscall_frame := none
    modload_frame := none }

/-- Section 3: the frame of a `ModuleLoad` event. -/
def spec.module_load_frame (e : modload_event) : frame :=
  { std_frame := none
    syscall_frame := none
    modload_frame := some ⟨e.name, e.low, e.high⟩ }

/-- Section 3: the frame of a `SystemCall` event. -/
def spec.system_call_frame (e : syscall_event) : frame :=
  { std_frame := none
    syscall_frame := some ⟨e.addr, e.tid, e.number, ⟨e.args⟩⟩
    modload_frame := none }

/-- The events that start an instruction. -/
def event.is_operation : event → Bool
  | event.operation _ => true
  | _ => false

/-- Section 4.3: the instruction that is open once the events `es` have
arrived: the last `OperationStart` among them, with the events that arrived
after it. -/
def spec.open_instruction (es : List event) : Option (operation_event × List event) :=
  match es.reverse.dropWhile (fun e => !e.is_operation) with
  | event.operation op :: _ =>
    some (op, (es.reverse.takeWhile (fun e => !e.is_operation)).reverse)
  | _ => none

/-- Section 4.3: the frame finalized by a closing boundary that follows the
events `es`: the frame of the open instruction, if there is one. -/
def spec.closing_frame (es : List event) : List frame :=
  match spec.open_instruction es with
  | some (op, after) => [spec.instruction_frame op after]
  | none => []

/-- Section 5: the frames that reach the sink at position `i` of the stream
`es`, position `es.length` being the session end.  A `ModuleLoad` or
`SystemCall` contributes its own frame; an `OperationStart` and the session
end are closing boundaries and contribute the frame of the instruction that
was open before them; any other event contributes nothing. -/
def spec.frames_at (es : List event) (i : Nat) : List frame :=
  match es[i]? with
  | some (event.modload e) => [spec.module_load_frame e]
  | some (event.syscall e) => [spec.system_call_frame e]
  | some (event.operation _) => spec.closing_frame (es.take i)
  | some _ => []
  | none => spec.closing_frame (es.take i)

/-- Section 5: the content of the sink after the stream `es` and the session
end. -/
def spec.expected_sink (es : List event) : List frame :=
  (List.range (es.length + 1)).flatMap (spec.frames_at es)

/-- Section 4.3: the stream is well formed, every operand event arrives while
an instruction is open. -/
def spec.accepted (es : List event) : Bool :=
  (List.range es.length).all (fun i =>
    match es[i]? with
    | some e => !e.is_operand || (spec.open_instruction (es.take i)).isSome
    | none => true)

/-- Section 5: the frame appended immediately for an event, if any. -/
def spec.immediate_frame : event → List frame
  | event.modload e => [spec.module_load_frame e]
  | event.syscall e => [spec.system_call_frame e]
  | _ => []

/-- The address an event opens an instruction frame for, if any. -/
def spec.started_address : event → Option Nat
  | event.operation op => some op.addr
  | _ => none

/-- An interleaved stream: two instructions with operands, a module load
before the first, a system call while the first is open, an event no overload
handles while the second is open. -/
def sample.interleaved : List event :=
  [event.modload ⟨"a.out", 0x400000, 0x401000⟩,
   event.operation ⟨0x400000, 1, [0x90]⟩,
   event.load ⟨0x1000, [0x01]⟩,
   event.syscall ⟨0x400000, 1, 4, [1, 0x2000, 12]⟩,
   event.store ⟨0x1000, [0x02]⟩,
   event.operation ⟨0x400001, 1, [0x91]⟩,
   event.other "pin event",
   event.read ⟨"AL", [0x78], 8⟩]

/-! ## Sample inputs -/

/-- The event stream of the scenario of section 8: an instruction at
`0x400000` that reads and then writes the byte at `0x1000`, followed by the
start of the next instruction. -/
def sample.scenario : List event :=
  [event.operation ⟨0x400000, 1, [0x90]⟩,
   event.load ⟨0x1000, [0x01]⟩,
   event.store ⟨0x1000, [0x02]⟩,
   event.operation ⟨0x400001, 1, [0x91]⟩]

/-- A small flag table: a flag that is read and written, one that is only
read, one that is only written and one with no effect. -/
def sample.flags : List flag :=
  [⟨"CF", 1, 3, fun b => (b.headD 0).toNat % 2⟩,
   ⟨"ZF", 1, 1, fun b => (b.headD 0).toNat / 64 % 2⟩,
   ⟨"OF", 1, 2, fun _ => 1⟩,
   ⟨"AF", 1, 0, fun _ => 0⟩]

/-- A writer in the `Open` state: the first three events of the scenario have
been visited. -/
def sample.open_writer : writer_frames :=
  (writer_frames.initial.visit_all (sample.scenario.take 3)).state

/-- The first event of the scenario: the instruction at `0x400000`. -/
def sample.start : operation_event := ⟨0x400000, 1, [0x90]⟩

/-- Operand events of every kind, reads and writes interleaved. -/
def sample.operands : List event :=
  [event.load ⟨0x1000, [0x01]⟩,
   event.write ⟨"EAX", [0x78, 0x56, 0x34, 0x12], 0⟩,
   event.read_flags ⟨sample.flags, [0x41]⟩,
   event.store ⟨0x1000, [0x02]⟩,
   event.write_flags ⟨sample.flags, [0x41]⟩,
   event.read ⟨"AL", [0x78], 8⟩]

/-- The frame that is open in `sample.open_writer`. -/
def sample.open_frame : std_frame_element :=
  ⟨⟨some ⟨0x400000, 1, [0x90],
      ⟨[⟨⟨some ⟨0x1000⟩, none⟩, 8, ⟨true, false, false, false⟩, ⟨true⟩, [0x01]⟩]⟩,
      ⟨[⟨⟨some ⟨0x1000⟩, none⟩, 8, ⟨false, true, false, false⟩, ⟨true⟩, [0x02]⟩]⟩⟩,
    none, none⟩⟩

/-! ## The session metadata (namespace `meta`) -/

/-- Modelled from the spec: message `tracer` of the frame schema (section 3,
SessionMetadata, tracer identity). -/
structure tracer where
  name : String
  args : List String
  envp : List String
  version : String
deriving DecidableEq, Repr

/-- Modelled from the spec: message `target` of the frame schema (section 3,
SessionMetadata, target identity). -/
structure target where
  path : String
  args : List String
  envp : List String
  md5sum : String
deriving DecidableEq, Repr

/-- Modelled from the spec: message `fstats` of the frame schema (section 3,
SessionMetadata, file statistics). -/
structure fstats where
  size : Nat
  atime : Nat
  mtime : Nat
  ctime : Nat
deriving DecidableEq, Repr

/-- Modelled from the spec: message `meta_frame` of the frame schema
(section 3, SessionMetadata). -/
structure meta_frame where
  tracer : bpt.tracer
  target : bpt.target
  fstats : bpt.fstats
  user : String
  host : String
  time : Nat
deriving DecidableEq, Repr

/-- Modelled from the spec: the filesystem and operating system that
`meta::create` consults (section 6): the current working directory, the
absolute paths that exist, the value of the environment variable `PATH`
(absent when unset), the `stat` and digest of a file (absent when the call
fails), the login name (absent when `getlogin` returns null), the host name
and the clock. -/
structure host where
  cwd : String
  files : List String
  PATH : Option String
  stat : String → Option fstats
  digest : String → Option String
  login : Option String
  hostname : String
  time : Nat

/-- The ways `meta::create` can fail. -/
inductive meta_failure where
  /-- An element of `argv` beyond its terminating null pointer was read. -/
  | out_of_bounds
  /-- A string was constructed from a null pointer. -/
  | null_string
  /-- The exception `std::invalid_argument(path + " not found")`. -/
  | not_found (message : String)
  /-- The exception `std::runtime_error("failed to obtain file stats")`. -/
  | stat_failed
  /-- The file source of the digest could not read the file. -/
  | digest_failed
deriving DecidableEq, Repr

/-- Equality of the results of `meta::create` is decidable. -/
instance except_decidable_eq {ε α : Type} [DecidableEq ε] [DecidableEq α] :
    DecidableEq (Except ε α)
  | Except.ok a, Except.ok b =>
    if h : a = b then isTrue (by rw [h]) else isFalse (fun e => h (Except.ok.inj e))
  | Except.error a, Except.error b =>
    if h : a = b then isTrue (by rw [h]) else isFalse (fun e => h (Except.error.inj e))
  | Except.ok _, Except.error _ => isFalse (fun e => Except.noConfusion e)
  | Except.error _, Except.ok _ => isFalse (fun e => Except.noConfusion e)

/-- A `char*` cell of an argument vector: a token, the terminating null
pointer, or a position that lies outside the array. -/
inductive cell where
  | token (s : String)
  | null
  | outside
deriving DecidableEq, Repr

/-- The element `argv[i]` of an argument vector of `argv.length` tokens
followed by a null pointer. -/
def argv_at (argv : List String) (i : Nat) : cell :=
  match argv[i]? with
  | some s => cell.token s
  | none => if i = argv.length then cell.null else cell.outside

/-- Modelled from the spec: `path::is_absolute` of the filesystem library, for
the path syntax of the platforms the tracer is built for: the path has a root
directory. -/
def fs.is_absolute (p : String) : Bool :=
  match p.data with
  | c :: _ => c == '/'
  | [] => false

/-- Modelled from the spec: `path::is_relative` of the filesystem library. -/
def fs.is_relative (p : String) : Bool :=
  !fs.is_absolute p

/-- Modelled from the spec: `path::parent_path().empty()` of the filesystem
library for a relative path: the path has no directory component, it contains
no separator. -/
def fs.parent_path_empty (p : String) : Bool :=
  !p.data.contains '/'

/-- Modelled from the spec: `operator/` of the filesystem library: the
separator is inserted unless one of the operands is empty or the left one ends
with a separator. -/
def fs.join (base p : String) : String :=
  if base.data.isEmpty || p.data.isEmpty || base.data.getLast? == some '/' then base ++ p
  else base ++ "/" ++ p

/-- Modelled from the spec: `absolute(p, base)` of the filesystem library: an
absolute `p` is returned as it is, a relative `p` is appended to `base`, itself
made absolute under the current working directory when it is relative. -/
def fs.absolute (cwd p base : String) : String :=
  if fs.is_absolute p then p
  else fs.join (if fs.is_absolute base then base else fs.join cwd base) p

/-- Modelled from the spec: `exists(path)` of section 6: the path, taken
relative to the current working directory, names an existing file. -/
def host.exists (h : host) (p : String) : Bool :=
  !p.data.isEmpty && h.files.contains (fs.absolute h.cwd p h.cwd)

/-- Modelled from the spec: `boost::split(roots, PATH, boost::is_any_of(":;"))`
of the string library: the text is cut at every `:` and `;`, empty pieces
included. -/
def split_roots : List Char → List (List Char)
  | [] => [[]]
  | c :: rest =>
    if c == ':' || c == ';' then [] :: split_roots rest
    else
      match split_roots rest with
      | [] => [[c]]
      | piece :: pieces => (c :: piece) :: pieces

namespace meta

/-- The template `init_data(obj, fn, data)`: `fn` is called on the elements of
`data` up to the terminating null pointer.  `data` is the vector `argv`
advanced by `start`; a start beyond the null pointer reads outside the array. -/
def init_data {σ : Type} (obj : σ) (fn : σ → String → σ) (argv : List String)
    (start : Nat) : Except meta_failure σ :=
  if start ≤ argv.length then Except.ok ((argv.drop start).foldl fn obj)
  else Except.error meta_failure.out_of_bounds

/-- The method `add_args` of the messages `tracer`. -/
def tracer_add_args (t : tracer) (a : String) : tracer :=
  { t with args := t.args ++ [a] }

/-- The method `add_envp` of the message `tracer`. -/
def tracer_add_envp (t : tracer) (a : String) : tracer :=
  { t with envp := t.envp ++ [a] }

/-- The method `add_args` of the message `target`. -/
def target_add_args (t : target) (a : String) : target :=
  { t with args := t.args ++ [a] }

/-- The method `add_envp` of the message `target`. -/
def target_add_envp (t : target) (a : String) : target :=
  { t with envp := t.envp ++ [a] }

/-- The function `init_tracer(tracer, argc, argv, envp)`; `argv` is the vector
advanced by `start`.  The count `argc` is not used by the body. -/
def init_tracer (t : tracer) (_argc : Int) (argv : List String) (start : Nat)
    (envp : List String) : Except meta_failure tracer := do
  let t := { t with name := "bpt" }
  let t ← init_data t tracer_add_args argv start
  let t ← init_data t tracer_add_envp envp 0
  pure { t with version := "1.0.0" }

/-- The function `md5sum(path)`: the digest of the file, an exception when the
file cannot be read. -/
def md5sum (h : host) (path : String) : Except meta_failure String :=
  match h.digest path with
  | some d => Except.ok d
  | none => Except.error meta_failure.digest_failed

/-- The function `init_target(target, path, argc, argv, envp)`; `argv` is the
vector advanced by `start`.  The count `argc` is not used by the body. -/
def init_target (h : host) (t : target) (path : String) (_argc : Int)
    (argv : List String) (start : Nat) (envp : List String) : Except meta_failure target := do
  let t := { t with path := path }
  let t ← init_data t target_add_args argv start
  let t ← init_data t target_add_envp envp 0
  let d ← md5sum h path
  pure { t with md5sum := d }

/-- The function `init_fstats(fstats, path)`. -/
def init_fstats (h : host) (_f : fstats) (path : String) : Except meta_failure fstats :=
  match h.stat path with
  | none => Except.error meta_failure.stat_failed
  | some stats => Except.ok ⟨stats.size, stats.atime, stats.mtime, stats.ctime⟩

/-- The loop of `create` that looks for the first `"--"`: `dpos` starts as
`argc` and becomes the index of the first token equal to `"--"`. -/
def find_dpos (argc : Nat) : Nat → List String → Nat
  | _, [] => argc
  | i, a :: rest => if "--" = a then i else find_dpos argc (i + 1) rest

/-- The loop of `create` over the roots of `PATH`: the path becomes the first
`absolute(path, root)` that exists, and stays as it is when there is none. -/
def search_roots (h : host) (path : String) : List String → String
  | [] => path
  | root :: rest =>
    if h.exists (fs.absolute h.cwd path root) then fs.absolute h.cwd path root
    else search_roots h path rest

/-- The path resolution of `create`, from the construction of `path` to the
`not found` exception. -/
def resolve (h : host) (raw : String) : Except meta_failure String := do
  let path ←
    if fs.is_relative raw then
      if h.exists raw then pure (fs.absolute h.cwd raw h.cwd)
      else if fs.parent_path_empty raw then
        match h.PATH with
        | none => Except.error meta_failure.null_string
        | some PATH => pure (search_roots h raw ((split_roots PATH.data).map String.mk))
      else pure raw
    else pure raw
  if !h.exists path then Except.error (meta_failure.not_found (path ++ " not found"))
  else pure path

/-- The function `create(argc, argv, envp)`, with `argc = argv.length`. -/
def create (h : host) (argv envp : List String) : Except meta_failure meta_frame := do
  let argc := argv.length
  let dpos := find_dpos argc 0 argv
  let raw ←
    match argv_at argv (dpos + 1) with
    | cell.token s => pure s
    | cell.null => Except.error meta_failure.null_string
    | cell.outside => Except.error meta_failure.out_of_bounds
  let path ← resolve h raw
  let tr ← init_tracer ⟨"", [], [], ""⟩ dpos argv 0 envp
  let tg ← init_target h ⟨"", [], [], ""⟩ path ((argc : Int) - dpos - 1) argv (dpos + 1) envp
  let fst ← init_fstats h ⟨0, 0, 0, 0⟩ path
  let user ←
    match h.login with
    | some u => pure u
    | none => Except.error meta_failure.null_string
  pure ⟨tr, tg, fst, user, h.hostname, h.time⟩

end meta

/-- A host with the files `/b/foo` and `/bin/ls`, the working directory
`/home/u` and `PATH = "/a:/b"`. -/
def sample.host : host :=
  { cwd := "/home/u"
    files := ["/b/foo", "/bin/ls", "/home/u/tools/run"]
    PATH := some "/a:/b"
    stat := fun _ => some ⟨1024, 3, 2, 1⟩
    digest := fun _ => some "d41d8cd9"
    login := some "u"
    hostname := "box"
    time := 1700000000 }

/-- An invocation of the tracer: tracer arguments, the separator, the target
and its arguments, one of them a second separator. -/
def sample.argv : List String :=
  ["pin", "-t", "bpt.so", "--", "/bin/ls", "-l", "--", "x"]

/-- An invocation without the separator. -/
def sample.argv_without_separator : List String :=
  ["pin", "-t", "bpt.so", "/bin/ls"]

/-! ## Teardown with its exception handler -/

/-- The `try` block of `impl::~impl()`: the open frame is finished, then the
container; the first exception leaves the block. -/
def writer_frames.try_finish (w : writer_frames) : outcome container_type :=
  let r1 : outcome container_type :=
    match w.pimpl.std_frame with
    | some sf => sf.finish w.pimpl.cont
    | none => ⟨w.pimpl.cont, none⟩
  match r1.thrown with
  | some err => ⟨r1.state, some err⟩
  | none => r1.state.finish

/-- The destructor `impl::~impl()` as the caller sees it: the handler catches
what the `try` block throws and reports it to the error stream. -/
def writer_frames.teardown (w : writer_frames) : outcome writer_frames :=
  let r := w.try_finish
  match r.thrown with
  | some _ =>
    ⟨{ pimpl := { cont := r.state, std_frame := none }
       cerr := w.cerr ++ ["finish failed with:"] }, none⟩
  | none => ⟨{ pimpl := { cont := r.state, std_frame := none }, cerr := w.cerr }, none⟩

/-- A writer in the `Open` state whose sink refuses the next append and then
accepts again. -/
def sample.refusing_writer : writer_frames :=
  { sample.open_writer with
    pimpl := { sample.open_writer.pimpl with
      cont := { sample.open_writer.pimpl.cont with faults := [true] } } }

/-- The sample flag table with a two-bit flag added. -/
def sample.flags_with_two_bits : List flag :=
  sample.flags ++ [⟨"IOPL", 2, 1, fun _ => 3⟩]

/-! ## The invariant of the operand lists -/

/-- A descriptor carries exactly one of a memory address and a register
name. -/
def operand_info.one_carrier (oi : operand_info) : Bool :=
  oi.operand_info_specific.mem_operand.isSome != oi.operand_info_specific.reg_operand.isSome

/-- A descriptor of a pre list: read, not written, one carrier. -/
def operand_info.pre_ok (oi : operand_info) : Bool :=
  oi.operand_usage.read && !oi.operand_usage.written && oi.one_carrier

/-- A descriptor of a post list: written, not read, one carrier. -/
def operand_info.post_ok (oi : operand_info) : Bool :=
  oi.operand_usage.written && !oi.operand_usage.read && oi.one_carrier

/-- The operand lists of the instruction frame of a frame, if it has one,
hold only descriptors of their kind. -/
def frame.operands_ok (f : frame) : Bool :=
  match f.std_frame with
  | none => true
  | some sf =>
    sf.operand_pre_list.elem.all operand_info.pre_ok &&
      sf.operand_post_list.elem.all operand_info.post_ok

/-- The invariant of the writer: the instruction frames in the sink and the
open frame hold only descriptors of their kind. -/
def writer_frames.operands_ok (w : writer_frames) : Bool :=
  w.pimpl.cont.frames.all frame.operands_ok &&
    (match w.pimpl.std_frame with
     | none => true
     | some sf => sf.frm.operands_ok)

/-! ## Lemmas on the accumulator -/

theorem update_last_concat {α : Type} (f : α → α) (l : List α) (x : α) :
    update_last f (l ++ [x]) = l ++ [f x] := by
  induction l with
  | nil => rfl
  | cons a t ih =>
    cases t with
    | nil => rfl
    | cons b t2 =>
      have h : update_last f (a :: b :: (t2 ++ [x])) = a :: update_last f (b :: (t2 ++ [x])) := rfl
      simpa [h] using ih

theorem operand_list_set_same (sf : std_frame) (u : usage) (ovl : operand_value_list) :
    (sf.set_operand_list u ovl).operand_list u = ovl := by
  cases u <;> rfl

theorem operand_list_set_other (sf : std_frame) (u v : usage) (ovl : operand_value_list)
    (h : v ≠ u) : (sf.set_operand_list u ovl).operand_list v = sf.operand_list v := by
  cases u <;> cases v <;> first | rfl | exact absurd rfl h

theorem set_operand_list_twice (sf : std_frame) (u : usage) (a b : operand_value_list) :
    (sf.set_operand_list u a).set_operand_list u b = sf.set_operand_list u b := by
  cases u <;> rfl

theorem create_operand_frm (s : std_frame_element) (u : usage) (data : bytes_type) (w : Int) :
    (s.create_operand u data w).frm =
      { s.frm with
        std_frame := some (s.frm.mutable_std_frame.set_operand_list u
          ⟨s.operands u ++ [spec.encode_operand u data w operand_info_specific.empty]⟩) } := by
  by_cases hw : w = 0 <;>
    simp [std_frame_element.create_operand, std_frame_element.operands,
      operand_value_list.add_elem, spec.encode_operand, hw]

theorem create_operand_operands (s : std_frame_element) (u : usage) (data : bytes_type)
    (w : Int) :
    (s.create_operand u data w).operands u =
      s.operands u ++ [spec.encode_operand u data w operand_info_specific.empty] := by
  simp [std_frame_element.operands, create_operand_frm, frame.mutable_std_frame,
    operand_list_set_same]

theorem add_mem_frm (s : std_frame_element) (u : usage) (addr : ADDRINT) (data : bytes_type) :
    (s.add_mem u addr data).frm =
      { s.frm with
        std_frame := some (s.frm.mutable_std_frame.set_operand_list u
          ⟨s.operands u ++ [spec.encode_memory u addr data]⟩) } := by
  simp [std_frame_element.add_mem, std_frame_element.update_specific, create_operand_frm,
    frame.mutable_std_frame, operand_list_set_same, set_operand_list_twice,
    update_last_concat, spec.encode_memory, spec.encode_operand, operand_info_specific.empty]

theorem add_reg_frm (s : std_frame_element) (u : usage) (name : String) (data : bytes_type)
    (w : Int) :
    (s.add_reg u name data w).frm =
      { s.frm with
        std_frame := some (s.frm.mutable_std_frame.set_operand_list u
          ⟨s.operands u ++ [spec.encode_register u name data w]⟩) } := by
  simp [std_frame_element.add_reg, std_frame_element.update_specific, create_operand_frm,
    frame.mutable_std_frame, operand_list_set_same, set_operand_list_twice,
    update_last_concat, spec.encode_register, spec.encode_operand, operand_info_specific.empty]

theorem add_reg_operands (s : std_frame_element) (u : usage) (name : String)
    (data : bytes_type) (w : Int) :
    (s.add_reg u name data w).operands u =
      s.operands u ++ [spec.encode_register u name data w] := by
  simp [std_frame_element.operands, add_reg_frm, frame.mutable_std_frame,
    operand_list_set_same]

theorem add_reg_operands_other (s : std_frame_element) (u v : usage) (name : String)
    (data : bytes_type) (w : Int) (h : v ≠ u) :
    (s.add_reg u name data w).operands v = s.operands v := by
  simp [std_frame_element.operands, add_reg_frm, frame.mutable_std_frame,
    operand_list_set_other _ _ _ _ h]

theorem add_mem_operands (s : std_frame_element) (u : usage) (addr : ADDRINT)
    (data : bytes_type) :
    (s.add_mem u addr data).operands u = s.operands u ++ [spec.encode_memory u addr data] := by
  simp [std_frame_element.operands, add_mem_frm, frame.mutable_std_frame,
    operand_list_set_same]

theorem add_mem_operands_other (s : std_frame_element) (u v : usage) (addr : ADDRINT)
    (data : bytes_type) (h : v ≠ u) :
    (s.add_mem u addr data).operands v = s.operands v := by
  simp [std_frame_element.operands, add_mem_frm, frame.mutable_std_frame,
    operand_list_set_other _ _ _ _ h]

/-- The loop body shared by the two flags overloads. -/
theorem flags_loop_operands (u : usage) (bytes : bytes_type) (fl : List flag)
    (s : std_frame_element) :
    (fl.foldl
        (fun acc f =>
          if spec.includes f u = true then
            acc.add_reg u f.name (List.replicate 1 (flag_byte f bytes)) f.width
          else acc) s).operands u =
      s.operands u ++ spec.encode_flags ⟨fl, bytes⟩ u ∧
    ∀ v, v ≠ u →
      (fl.foldl
        (fun acc f =>
          if spec.includes f u = true then
            acc.add_reg u f.name (List.replicate 1 (flag_byte f bytes)) f.width
          else acc) s).operands v = s.operands v := by
  induction fl generalizing s with
  | nil => simp [spec.encode_flags, spec.decompose]
  | cons f rest ih =>
    by_cases hf : spec.includes f u = true
    · have h := ih (s.add_reg u f.name (List.replicate 1 (flag_byte f bytes)) f.width)
      rw [List.foldl_cons, if_pos hf]
      refine ⟨?_, fun v hv => ?_⟩
      · rw [h.1, add_reg_operands]
        simp [spec.encode_flags, spec.decompose, hf, flag_byte]
      · rw [h.2 v hv, add_reg_operands_other _ _ _ _ _ _ hv]
    · have h := ih s
      rw [List.foldl_cons, if_neg hf]
      refine ⟨?_, fun v hv => h.2 v hv⟩
      rw [h.1]
      simp [spec.encode_flags, spec.decompose, hf]

theorem add_read_flags_eq (s : std_frame_element) (e : flags_event) :
    s.add_read_flags e =
      e.flags.foldl
        (fun acc f =>
          if spec.includes f usage.R = true then
            acc.add_reg usage.R f.name (List.replicate 1 (flag_byte f e.bytes)) f.width
          else acc) s := by
  simp [std_frame_element.add_read_flags, spec.includes]

theorem add_write_flags_eq (s : std_frame_element) (e : flags_event) :
    s.add_write_flags e =
      e.flags.foldl
        (fun acc f =>
          if spec.includes f usage.W = true then
            acc.add_reg usage.W f.name (List.replicate 1 (flag_byte f e.bytes)) f.width
          else acc) s := by
  simp [std_frame_element.add_write_flags, spec.includes]

theorem std_frame_element_ext (s t : std_frame_element) (h : s.frm = t.frm) : s = t := by
  cases s
  cases t
  simpa using h

theorem add_reg_opened (op : operation_event) (pre post : List operand_info) (u : usage)
    (name : String) (data : bytes_type) (w : Int) :
    (std_frame_element.opened op pre post).add_reg u name data w =
      match u with
      | usage.R =>
        std_frame_element.opened op (pre ++ [spec.encode_register usage.R name data w]) post
      | usage.W =>
        std_frame_element.opened op pre (post ++ [spec.encode_register usage.W name data w]) := by
  apply std_frame_element_ext
  rw [add_reg_frm]
  cases u <;> rfl

theorem add_mem_opened (op : operation_event) (pre post : List operand_info) (u : usage)
    (addr : ADDRINT) (data : bytes_type) :
    (std_frame_element.opened op pre post).add_mem u addr data =
      match u with
      | usage.R =>
        std_frame_element.opened op (pre ++ [spec.encode_memory usage.R addr data]) post
      | usage.W =>
        std_frame_element.opened op pre (post ++ [spec.encode_memory usage.W addr data]) := by
  apply std_frame_element_ext
  rw [add_mem_frm]
  cases u <;> rfl

theorem read_flags_opened (op : operation_event) (bytes : bytes_type) (fl : List flag)
    (pre post : List operand_info) :
    (std_frame_element.opened op pre post).add_read_flags ⟨fl, bytes⟩ =
      std_frame_element.opened op (pre ++ spec.encode_flags ⟨fl, bytes⟩ usage.R) post := by
  rw [add_read_flags_eq]
  induction fl generalizing pre with
  | nil => simp [spec.encode_flags, spec.decompose]
  | cons f rest ih =>
    by_cases hf : spec.includes f usage.R = true
    · rw [List.foldl_cons, if_pos hf, add_reg_opened]
      simp only []
      rw [ih]
      simp [spec.encode_flags, spec.decompose, hf, flag_byte]
    · rw [List.foldl_cons, if_neg hf, ih]
      simp [spec.encode_flags, spec.decompose, hf]

theorem write_flags_opened (op : operation_event) (bytes : bytes_type) (fl : List flag)
    (pre post : List operand_info) :
    (std_frame_element.opened op pre post).add_write_flags ⟨fl, bytes⟩ =
      std_frame_element.opened op pre (post ++ spec.encode_flags ⟨fl, bytes⟩ usage.W) := by
  rw [add_write_flags_eq]
  induction fl generalizing post with
  | nil => simp [spec.encode_flags, spec.decompose]
  | cons f rest ih =>
    by_cases hf : spec.includes f usage.W = true
    · rw [List.foldl_cons, if_pos hf, add_reg_opened]
      simp only []
      rw [ih]
      simp [spec.encode_flags, spec.decompose, hf, flag_byte]
    · rw [List.foldl_cons, if_neg hf, ih]
      simp [spec.encode_flags, spec.decompose, hf]

/-- The state a writer with an open frame is left in by an operand event. -/
theorem visit_operand_opened (w : writer_frames) (op : operation_event)
    (pre post : List operand_info) (e : event)
    (h : w.pimpl.std_frame = some (std_frame_element.opened op pre post))
    (he : e.is_operand = true) :
    w.visit e =
      ⟨{ w with pimpl := { w.pimpl with
          std_frame := some (std_frame_element.opened op
            (pre ++ spec.pre_encodings e) (post ++ spec.post_encodings e)) } }, none⟩ := by
  cases e with
  | read r =>
    simp [writer_frames.visit, writer_frames.with_std_frame, h, std_frame_element.add_read,
      std_frame_element.add_register, add_reg_opened, spec.pre_encodings, spec.post_encodings]
  | write r =>
    simp [writer_frames.visit, writer_frames.with_std_frame, h, std_frame_element.add_write,
      std_frame_element.add_register, add_reg_opened, spec.pre_encodings, spec.post_encodings]
  | load m =>
    simp [writer_frames.visit, writer_frames.with_std_frame, h, std_frame_element.add_load,
      std_frame_element.add_memory, add_mem_opened, spec.pre_encodings, spec.post_encodings]
  | store m =>
    simp [writer_frames.visit, writer_frames.with_std_frame, h, std_frame_element.add_store,
      std_frame_element.add_memory, add_mem_opened, spec.pre_encodings, spec.post_encodings]
  | read_flags f =>
    cases f with
    | mk fl bytes =>
      simp [writer_frames.visit, writer_frames.with_std_frame, h, read_flags_opened,
        spec.pre_encodings, spec.post_encodings]
  | write_flags f =>
    cases f with
    | mk fl bytes =>
      simp [writer_frames.visit, writer_frames.with_std_frame, h, write_flags_opened,
        spec.pre_encodings, spec.post_encodings]
  | operation o => simp [event.is_operand] at he
  | modload m => simp [event.is_operand] at he
  | syscall c => simp [event.is_operand] at he
  | other t => simp [event.is_operand] at he

/-- The state a writer with an open frame is left in by a run of operand
events. -/
theorem visit_all_operands_opened (es : List event) (w : writer_frames)
    (op : operation_event) (pre post : List operand_info)
    (h : w.pimpl.std_frame = some (std_frame_element.opened op pre post))
    (hes : ∀ e ∈ es, e.is_operand = true) :
    w.visit_all es =
      ⟨{ w with pimpl := { w.pimpl with
          std_frame := some (std_frame_element.opened op
            (pre ++ es.flatMap spec.pre_encodings)
            (post ++ es.flatMap spec.post_encodings)) } }, none⟩ := by
  induction es generalizing w pre post with
  | nil =>
    cases w with
    | mk pimpl cerr =>
      cases pimpl with
      | mk cont sf =>
        simp only [] at h
        simp [writer_frames.visit_all, h]
  | cons e rest ih =>
    have he : e.is_operand = true := hes e (List.mem_cons_self _ _)
    have hrest : ∀ x ∈ rest, x.is_operand = true :=
      fun x hx => hes x (List.mem_cons_of_mem _ hx)
    have hv := visit_operand_opened w op pre post e h he
    rw [writer_frames.visit_all, hv]
    simp only []
    rw [ih _ (pre ++ spec.pre_encodings e) (post ++ spec.post_encodings e) rfl hrest]
    simp [List.append_assoc]

/-! ## Lemmas on the container and the visitor -/

theorem add_of_accepts (c : container_type) (f : frame) (h : c.accepts) :
    c.add f = ⟨{ c with frames := c.frames ++ [f], faults := c.faults.tail }, none⟩ := by
  cases c with
  | mk frames faults ff fin =>
    cases faults with
    | nil => rfl
    | cons b rest =>
      cases b with
      | false => rfl
      | true => exact absurd rfl h

theorem add_of_refused (c : container_type) (f : frame) (h : ¬ c.accepts) :
    c.add f = ⟨{ c with faults := c.faults.tail }, some failure.sink_failure⟩ := by
  cases c with
  | mk frames faults ff fin =>
    cases faults with
    | nil => exact absurd (by simp [container_type.accepts]) h
    | cons b rest =>
      cases b with
      | false => exact absurd (by simp [container_type.accepts]) h
      | true => rfl

theorem accepts_of_reliable (c : container_type) (h : c.reliable) : c.accepts := by
  cases c with
  | mk frames faults ff fin =>
    cases faults with
    | nil => simp [container_type.accepts]
    | cons b rest =>
      have hb : b = false := h b (List.mem_cons_self _ _)
      simp [container_type.accepts, hb]

theorem reliable_after_add (c : container_type) (f : frame) (h : c.reliable) :
    (c.add f).state.reliable := by
  rw [add_of_accepts c f (accepts_of_reliable c h)]
  intro b hb
  exact h b (List.mem_of_mem_tail hb)

theorem visit_operation_idle (w : writer_frames) (e : operation_event)
    (h : w.pimpl.std_frame = none) :
    w.visit (event.operation e) =
      ⟨{ w with pimpl := { cont := w.pimpl.cont,
                           std_frame := some (std_frame_element.opened e [] []) } }, none⟩ := by
  simp [writer_frames.visit, writer_frames.visit_operation, h, std_frame_element.create,
    std_frame_element.opened, frame.empty, frame.mutable_std_frame, std_frame.empty]

theorem visit_operation_open (w : writer_frames) (sf : std_frame_element)
    (e : operation_event) (h : w.pimpl.std_frame = some sf) (hacc : w.pimpl.cont.accepts) :
    w.visit (event.operation e) =
      ⟨{ w with pimpl := { cont := (w.pimpl.cont.add sf.frm).state,
                           std_frame := some (std_frame_element.opened e [] []) } }, none⟩ := by
  simp [writer_frames.visit, writer_frames.visit_operation, h, std_frame_element.finish,
    add_of_accepts _ _ hacc, std_frame_element.create,
    std_frame_element.opened, frame.empty, frame.mutable_std_frame, std_frame.empty]

theorem visit_operation_refused (w : writer_frames) (sf : std_frame_element)
    (e : operation_event) (h : w.pimpl.std_frame = some sf) (hacc : ¬ w.pimpl.cont.accepts) :
    w.visit (event.operation e) =
      ⟨{ w with pimpl := { w.pimpl with cont := (w.pimpl.cont.add sf.frm).state } },
        some failure.sink_failure⟩ := by
  simp [writer_frames.visit, writer_frames.visit_operation, h, std_frame_element.finish,
    add_of_refused _ _ hacc]

/-- After an `OperationStart` that did not fail, the open frame is the fresh
frame of that event. -/
theorem visit_operation_opens (w : writer_frames) (e : operation_event)
    (h : (w.visit (event.operation e)).thrown = none) :
    (w.visit (event.operation e)).state.pimpl.std_frame =
      some (std_frame_element.opened e [] []) := by
  cases hsf : w.pimpl.std_frame with
  | none => rw [visit_operation_idle w e hsf]
  | some sf =>
    by_cases hacc : w.pimpl.cont.accepts
    · rw [visit_operation_open w sf e hsf hacc]
    · rw [visit_operation_refused w sf e hsf hacc] at h
      simp at h

theorem destroy_frames_open (w : writer_frames) (sf : std_frame_element)
    (h : w.pimpl.std_frame = some sf) (hacc : w.pimpl.cont.accepts) :
    w.destroy.pimpl.cont.frames = w.pimpl.cont.frames ++ [sf.frm] ∧
    w.destroy.pimpl.cont = (w.pimpl.cont.add sf.frm).state.finish.state := by
  simp only [writer_frames.destroy, h, std_frame_element.finish, add_of_accepts _ _ hacc]
  by_cases hff : w.pimpl.cont.finish_fault = true <;>
    simp [container_type.finish, hff]

theorem destroy_frames_idle (w : writer_frames) (h : w.pimpl.std_frame = none) :
    w.destroy.pimpl.cont.frames = w.pimpl.cont.frames := by
  simp only [writer_frames.destroy, h]
  by_cases hff : w.pimpl.cont.finish_fault = true <;>
    simp [container_type.finish, hff]

theorem syscall_arguments (args : List ADDRINT) (al : argument_list) :
    args.foldl (fun acc addr => acc.add_elem addr) al = ⟨al.elem ++ args⟩ := by
  induction args generalizing al with
  | nil => simp
  | cons a rest ih =>
    rw [List.foldl_cons, ih]
    simp [argument_list.add_elem]

theorem pre_encodings_usage (e : event) :
    ∀ oi ∈ spec.pre_encodings e,
      oi.operand_usage.read = true ∧ oi.operand_usage.written = false := by
  intro oi h
  cases e with
  | read r =>
    simp only [spec.pre_encodings, List.mem_singleton] at h
    subst h
    simp [spec.encode_register, spec.encode_operand]
  | load m =>
    simp only [spec.pre_encodings, List.mem_singleton] at h
    subst h
    simp [spec.encode_memory, spec.encode_operand]
  | read_flags f =>
    simp only [spec.pre_encodings, spec.encode_flags, List.mem_map] at h
    obtain ⟨t, -, rfl⟩ := h
    simp [spec.encode_register, spec.encode_operand]
  | write r => simp [spec.pre_encodings] at h
  | store m => simp [spec.pre_encodings] at h
  | write_flags f => simp [spec.pre_encodings] at h
  | operation o => simp [spec.pre_encodings] at h
  | modload m => simp [spec.pre_encodings] at h
  | syscall c => simp [spec.pre_encodings] at h
  | other t => simp [spec.pre_encodings] at h

theorem post_encodings_usage (e : event) :
    ∀ oi ∈ spec.post_encodings e,
      oi.operand_usage.written = true ∧ oi.operand_usage.read = false := by
  intro oi h
  cases e with
  | write r =>
    simp only [spec.post_encodings, List.mem_singleton] at h
    subst h
    simp [spec.encode_register, spec.encode_operand]
  | store m =>
    simp only [spec.post_encodings, List.mem_singleton] at h
    subst h
    simp [spec.encode_memory, spec.encode_operand]
  | write_flags f =>
    simp only [spec.post_encodings, spec.encode_flags, List.mem_map] at h
    obtain ⟨t, -, rfl⟩ := h
    simp [spec.encode_register, spec.encode_operand]
  | read r => simp [spec.post_encodings] at h
  | load m => simp [spec.post_encodings] at h
  | read_flags f => simp [spec.post_encodings] at h
  | operation o => simp [spec.post_encodings] at h
  | modload m => simp [spec.post_encodings] at h
  | syscall c => simp [spec.post_encodings] at h
  | other t => simp [spec.post_encodings] at h

/-- A run of operand events on a writer with an open frame: nothing fails, the
sink and the error stream are untouched, the frame has grown. -/
theorem visit_all_operands_facts (es : List event) (w : writer_frames)
    (op : operation_event) (pre post : List operand_info)
    (h : w.pimpl.std_frame = some (std_frame_element.opened op pre post))
    (hes : ∀ e ∈ es, e.is_operand = true) :
    (w.visit_all es).thrown = none ∧
    (w.visit_all es).state.pimpl.std_frame =
      some (std_frame_element.opened op (pre ++ es.flatMap spec.pre_encodings)
        (post ++ es.flatMap spec.post_encodings)) ∧
    (w.visit_all es).state.pimpl.cont = w.pimpl.cont ∧
    (w.visit_all es).state.cerr = w.cerr := by
  rw [visit_all_operands_opened es w op pre post h hes]
  exact ⟨rfl, rfl, rfl, rfl⟩

/-! ## The operand codec (section 4.1) -/

/-- C3: for every usage, byte sequence and declared width, the descriptor that
`create_operand` appends has `bit_length` equal to the declared width when that
is nonzero and to eight times the number of value bytes when it is zero; a
four-byte value gets 32 with no declared width and 1 with declared width 1, and
an empty value with no declared width gets 0. -/
theorem create_operand_bit_length (s : std_frame_element) (u : usage) (data : bytes_type)
    (w : Int) :
    (∃ oi, (s.create_operand u data w).operands u = s.operands u ++ [oi] ∧
      oi.bit_length = if w = 0 then 8 * (data.length : Int) else w) ∧
    (∀ a b c d : UInt8, ∃ oi,
      (s.create_operand u [a, b, c, d] 0).operands u = s.operands u ++ [oi] ∧
      oi.bit_length = 32) ∧
    (∀ a b c d : UInt8, ∃ oi,
      (s.create_operand u [a, b, c, d] 1).operands u = s.operands u ++ [oi] ∧
      oi.bit_length = 1) ∧
    (∃ oi, (s.create_operand u [] 0).operands u = s.operands u ++ [oi] ∧
      oi.bit_length = 0) := by
  refine ⟨⟨_, create_operand_operands s u data w, ?_⟩,
    fun a b c d => ⟨_, create_operand_operands s u [a, b, c, d] 0, ?_⟩,
    fun a b c d => ⟨_, create_operand_operands s u [a, b, c, d] 1, ?_⟩,
    ⟨_, create_operand_operands s u [] 0, ?_⟩⟩
  · by_cases hw : w = 0 <;> simp [spec.encode_operand, hw]
  · simp [spec.encode_operand]
  · simp [spec.encode_operand]
  · simp [spec.encode_operand]

/-- C4: for every call of the operand encoder with usage `u` and bytes `d`,
the appended descriptor has `read` set exactly when `u` is `R` and `written`
exactly when `u` is `W`, so exactly one of the two; `index` and `base` are
false, the value is `d` and the taint is the no-taint placeholder.  The same
holds of the descriptor once `add` has filled in the address or the register
name. -/
theorem create_operand_usage_value_taint (s : std_frame_element) (u : usage)
    (d : bytes_type) (w : Int) (addr : ADDRINT) (name : String) :
    (∃ oi, (s.create_operand u d w).operands u = s.operands u ++ [oi] ∧
      oi.operand_usage.read = decide (u = usage.R) ∧
      oi.operand_usage.written = decide (u = usage.W) ∧
      oi.operand_usage.read ≠ oi.operand_usage.written ∧
      oi.operand_usage.index = false ∧ oi.operand_usage.base = false ∧
      oi.value = d ∧ oi.taint_info.no_taint = true) ∧
    (∃ oi, (s.add_mem u addr d).operands u = s.operands u ++ [oi] ∧
      oi.operand_usage.read = decide (u = usage.R) ∧
      oi.operand_usage.written = decide (u = usage.W) ∧
      oi.operand_usage.read ≠ oi.operand_usage.written ∧
      oi.operand_usage.index = false ∧ oi.operand_usage.base = false ∧
      oi.value = d ∧ oi.taint_info.no_taint = true) ∧
    (∃ oi, (s.add_reg u name d w).operands u = s.operands u ++ [oi] ∧
      oi.operand_usage.read = decide (u = usage.R) ∧
      oi.operand_usage.written = decide (u = usage.W) ∧
      oi.operand_usage.read ≠ oi.operand_usage.written ∧
      oi.operand_usage.index = false ∧ oi.operand_usage.base = false ∧
      oi.value = d ∧ oi.taint_info.no_taint = true) := by
  refine ⟨⟨_, create_operand_operands s u d w, ?_⟩, ⟨_, add_mem_operands s u addr d, ?_⟩,
    ⟨_, add_reg_operands s u name d w, ?_⟩⟩ <;>
    cases u <;> simp [spec.encode_operand, spec.encode_memory, spec.encode_register]

/-! ## The flag decomposer (section 4.2) -/

theorem filter_length_mono {α : Type} (p q : α → Bool) (l : List α)
    (h : ∀ x, p x = true → q x = true) : (l.filter p).length ≤ (l.filter q).length := by
  induction l with
  | nil => simp
  | cons a t ih =>
    by_cases hp : p a = true
    · have hq := h a hp
      rw [List.filter_cons_of_pos hp, List.filter_cons_of_pos hq]
      simpa using ih
    · rw [List.filter_cons_of_neg hp]
      by_cases hq : q a = true
      · rw [List.filter_cons_of_pos hq]
        simp only [List.length_cons]
        omega
      · rw [List.filter_cons_of_neg hq]
        exact ih

theorem filter_lengths_le_twice (fl : List flag) :
    (fl.filter (fun f => decide (f.effect &&& RD ≠ 0))).length +
      (fl.filter (fun f => decide (f.effect &&& WR ≠ 0))).length ≤
    2 * (fl.filter (fun f => decide (f.effect &&& RD ≠ 0 ∨ f.effect &&& WR ≠ 0))).length := by
  have h1 := filter_length_mono (fun f : flag => decide (f.effect &&& RD ≠ 0))
    (fun f => decide (f.effect &&& RD ≠ 0 ∨ f.effect &&& WR ≠ 0)) fl
    (fun x hx => by
      simp only [decide_eq_true_eq] at hx ⊢
      exact Or.inl hx)
  have h2 := filter_length_mono (fun f : flag => decide (f.effect &&& WR ≠ 0))
    (fun f => decide (f.effect &&& RD ≠ 0 ∨ f.effect &&& WR ≠ 0)) fl
    (fun x hx => by
      simp only [decide_eq_true_eq] at hx ⊢
      exact Or.inr hx)
  omega

theorem filter_effect_le (fl : List flag) :
    (fl.filter (fun f => decide (f.effect &&& RD ≠ 0 ∨ f.effect &&& WR ≠ 0))).length ≤
      (fl.filter (fun f => decide (f.effect ≠ 0))).length :=
  filter_length_mono _ _ fl (fun x hx => by
    simp only [decide_eq_true_eq] at hx ⊢
    intro h0
    rw [h0] at hx
    simp at hx)

/-- C5: for every flag table and flags event, a flags read appends to the pre
list exactly the flags whose effect mask includes `RD`, in table order, and
leaves the post list alone; a flags write appends to the post list exactly the
flags whose mask includes `WR`, in table order, and leaves the pre list alone;
a flag whose mask excludes the direction contributes nothing, and a read plus
a write of one event add at most twice as many operands as there are flags
with an enabled effect. -/
theorem flags_decomposition_filtered (s : std_frame_element) (e : flags_event) :
    (s.add_read_flags e).operands usage.R =
      s.operands usage.R ++
        (e.flags.filter (fun f => decide (f.effect &&& RD ≠ 0))).map
          (fun f => spec.encode_register usage.R f.name [UInt8.ofNat (f.value e.bytes)] f.width) ∧
    (s.add_read_flags e).operands usage.W = s.operands usage.W ∧
    (s.add_write_flags e).operands usage.W =
      s.operands usage.W ++
        (e.flags.filter (fun f => decide (f.effect &&& WR ≠ 0))).map
          (fun f => spec.encode_register usage.W f.name [UInt8.ofNat (f.value e.bytes)] f.width) ∧
    (s.add_write_flags e).operands usage.R = s.operands usage.R ∧
    ((s.add_read_flags e).operands usage.R).length +
        ((s.add_write_flags e).operands usage.W).length ≤
      (s.operands usage.R).length + (s.operands usage.W).length +
        2 * (e.flags.filter
          (fun f => decide (f.effect &&& RD ≠ 0 ∨ f.effect &&& WR ≠ 0))).length ∧
    (e.flags.filter (fun f => decide (f.effect &&& RD ≠ 0 ∨ f.effect &&& WR ≠ 0))).length ≤
      (e.flags.filter (fun f => decide (f.effect ≠ 0))).length := by
  have hr := flags_loop_operands usage.R e.bytes e.flags s
  have hw := flags_loop_operands usage.W e.bytes e.flags s
  rw [← add_read_flags_eq s e] at hr
  rw [← add_write_flags_eq s e] at hw
  have hR : (s.add_read_flags e).operands usage.R =
      s.operands usage.R ++
        (e.flags.filter (fun f => decide (f.effect &&& RD ≠ 0))).map
          (fun f => spec.encode_register usage.R f.name [UInt8.ofNat (f.value e.bytes)] f.width) := by
    rw [hr.1]
    simp [spec.encode_flags, spec.decompose, spec.includes, Function.comp_def]
  have hW : (s.add_write_flags e).operands usage.W =
      s.operands usage.W ++
        (e.flags.filter (fun f => decide (f.effect &&& WR ≠ 0))).map
          (fun f => spec.encode_register usage.W f.name [UInt8.ofNat (f.value e.bytes)] f.width) := by
    rw [hw.1]
    simp [spec.encode_flags, spec.decompose, spec.includes, Function.comp_def]
  refine ⟨hR, hr.2 usage.W (by decide), hW, hw.2 usage.R (by decide), ?_, ?_⟩
  · rw [hR, hW]
    have := filter_lengths_le_twice e.flags
    simp only [List.length_append, List.length_map]
    omega
  · exact filter_effect_le e.flags

/-! ## The frame accumulator (section 4.3) -/

/-- C6 (the code departs from the claim): an operand event visited while no
instruction frame is open meets no test of the pointer `std_frame`: each of the
six overloads goes straight to the dereference of the empty pointer, which is
undefined behaviour and not a usage error.  The sibling paths do test the
pointer: `visit(const operation_event&)` on the same idle writer skips the
`finish` and opens the frame, and the destructor skips the `finish`. -/
theorem operand_event_while_idle_dereferences_empty_pointer (w : writer_frames) (e : event)
    (hidle : w.pimpl.std_frame = none) (he : e.is_operand = true) :
    (w.visit e).thrown = some failure.undefined_dereference ∧
    (∀ op : operation_event,
      (w.visit (event.operation op)).thrown = none ∧
      (w.visit (event.operation op)).state.pimpl.cont = w.pimpl.cont) ∧
    w.destroy.pimpl.cont.frames = w.pimpl.cont.frames := by
  refine ⟨?_, fun op => ?_, destroy_frames_idle w hidle⟩
  · cases e <;>
      first
      | (simp [event.is_operand] at he; done)
      | simp [writer_frames.visit, writer_frames.with_std_frame, hidle]
  · rw [visit_operation_idle w op hidle]
    exact ⟨rfl, rfl⟩

/-- Witness of C6: a flags read whose table holds no readable flag, and a
memory read, each as the first event of a fresh session. -/
theorem operand_event_while_idle_dereferences_empty_pointer_witness :
    writer_frames.initial.pimpl.std_frame = none ∧
    (event.read_flags ⟨[⟨"OF", 1, 2, fun _ => 1⟩], [0x41]⟩).is_operand = true ∧
    (writer_frames.initial.visit
        (event.read_flags ⟨[⟨"OF", 1, 2, fun _ => 1⟩], [0x41]⟩)).thrown =
      some failure.undefined_dereference ∧
    (writer_frames.initial.visit (event.load ⟨0x1000, [0x01]⟩)).thrown =
      some failure.undefined_dereference :=
  ⟨rfl, rfl,
    (operand_event_while_idle_dereferences_empty_pointer writer_frames.initial
      (event.read_flags ⟨[⟨"OF", 1, 2, fun _ => 1⟩], [0x41]⟩) rfl rfl).1,
    (operand_event_while_idle_dereferences_empty_pointer writer_frames.initial
      (event.load ⟨0x1000, [0x01]⟩) rfl rfl).1⟩

/-- C1: an `OperationStart` that is accepted, followed by any finite sequence
of operand events, leaves open the instruction frame whose pre list is the
concatenation, in arrival order, of the encodings of the read events (each
flags read contributing its decomposed flags) and whose post list is the
concatenation of the encodings of the write events; the operand events never
fail and do not touch the sink; a finalize, at teardown or at the next
`OperationStart`, hands exactly that frame to the sink; every descriptor of
the pre list is a read and not a write, every descriptor of the post list a
write and not a read. -/
theorem operands_partitioned_in_arrival_order (w : writer_frames) (op : operation_event)
    (es : List event) (hes : ∀ e ∈ es, e.is_operand = true)
    (hop : (w.visit (event.operation op)).thrown = none) :
    ((w.visit (event.operation op)).state.visit_all es).thrown = none ∧
    ((w.visit (event.operation op)).state.visit_all es).state.pimpl.std_frame =
      some ⟨spec.instruction_frame op es⟩ ∧
    ((w.visit (event.operation op)).state.visit_all es).state.pimpl.cont =
      (w.visit (event.operation op)).state.pimpl.cont ∧
    ((w.visit (event.operation op)).state.pimpl.cont.accepts →
      ((w.visit (event.operation op)).state.visit_all es).state.destroy.pimpl.cont.frames =
        (w.visit (event.operation op)).state.pimpl.cont.frames ++
          [spec.instruction_frame op es] ∧
      ∀ next : operation_event,
        (((w.visit (event.operation op)).state.visit_all es).state.visit
            (event.operation next)).state.pimpl.cont.frames =
          (w.visit (event.operation op)).state.pimpl.cont.frames ++
            [spec.instruction_frame op es]) ∧
    (∀ oi ∈ es.flatMap spec.pre_encodings,
      oi.operand_usage.read = true ∧ oi.operand_usage.written = false) ∧
    (∀ oi ∈ es.flatMap spec.post_encodings,
      oi.operand_usage.written = true ∧ oi.operand_usage.read = false) := by
  have hopen := visit_operation_opens w op hop
  obtain ⟨h1, h2, h3, -⟩ := visit_all_operands_facts es _ op [] [] hopen hes
  have h2' : ((w.visit (event.operation op)).state.visit_all es).state.pimpl.std_frame =
      some ⟨spec.instruction_frame op es⟩ := by
    rw [h2]
    simp [std_frame_element.opened, spec.instruction_frame]
  refine ⟨h1, h2', h3, ?_, ?_, ?_⟩
  · intro hacc
    have hacc2 : ((w.visit (event.operation op)).state.visit_all es).state.pimpl.cont.accepts := by
      rw [h3]
      exact hacc
    constructor
    · rw [(destroy_frames_open _ _ h2' hacc2).1, h3]
    · intro next
      rw [visit_operation_open _ _ next h2' hacc2]
      simp only []
      rw [add_of_accepts _ _ hacc2, h3]
  · intro oi hoi
    rw [List.mem_flatMap] at hoi
    obtain ⟨e, -, hmem⟩ := hoi
    exact pre_encodings_usage e oi hmem
  · intro oi hoi
    rw [List.mem_flatMap] at hoi
    obtain ⟨e, -, hmem⟩ := hoi
    exact post_encodings_usage e oi hmem

/-- Witness of C1: the instruction at `0x400000` followed by operand events of
every kind, on the writer of a fresh session. -/
theorem operands_partitioned_in_arrival_order_witness :
    (∀ e ∈ sample.operands, e.is_operand = true) ∧
    (writer_frames.initial.visit (event.operation sample.start)).thrown = none ∧
    (((writer_frames.initial.visit (event.operation sample.start)).state.visit_all
        sample.operands).thrown = none ∧
      ((writer_frames.initial.visit (event.operation sample.start)).state.visit_all
        sample.operands).state.pimpl.std_frame =
        some ⟨spec.instruction_frame sample.start sample.operands⟩) ∧
    spec.instruction_frame sample.start sample.operands =
      ⟨some ⟨0x400000, 1, [0x90],
        ⟨[⟨⟨some ⟨0x1000⟩, none⟩, 8, ⟨true, false, false, false⟩, ⟨true⟩, [0x01]⟩,
          ⟨⟨none, some ⟨"CF"⟩⟩, 1, ⟨true, false, false, false⟩, ⟨true⟩, [1]⟩,
          ⟨⟨none, some ⟨"ZF"⟩⟩, 1, ⟨true, false, false, false⟩, ⟨true⟩, [1]⟩,
          ⟨⟨none, some ⟨"AL"⟩⟩, 8, ⟨true, false, false, false⟩, ⟨true⟩, [0x78]⟩]⟩,
        ⟨[⟨⟨none, some ⟨"EAX"⟩⟩, 32, ⟨false, true, false, false⟩, ⟨true⟩,
            [0x78, 0x56, 0x34, 0x12]⟩,
          ⟨⟨some ⟨0x1000⟩, none⟩, 8, ⟨false, true, false, false⟩, ⟨true⟩, [0x02]⟩,
          ⟨⟨none, some ⟨"CF"⟩⟩, 1, ⟨false, true, false, false⟩, ⟨true⟩, [1]⟩,
          ⟨⟨none, some ⟨"OF"⟩⟩, 1, ⟨false, true, false, false⟩, ⟨true⟩, [1]⟩]⟩⟩,
        none, none⟩ :=
  ⟨by decide, rfl,
    ⟨(operands_partitioned_in_arrival_order writer_frames.initial sample.start
        sample.operands (by decide) rfl).1,
      (operands_partitioned_in_arrival_order writer_frames.initial sample.start
        sample.operands (by decide) rfl).2.1⟩,
    by decide⟩

/-- C2: for every state with an open frame and every `OperationStart` whose
append the sink accepts, the visit appends exactly one frame, the previously
open frame with the operands accumulated so far, and afterwards the open frame
is a fresh frame with the address, thread id and raw bytes of the event and
empty operand lists.  The stream of the scenario of section 8 leaves exactly
one frame in the sink, for address `0x400000`, with one pre operand (address
`0x1000`, value `0x01`, 8 bits) and one post operand (address `0x1000`, value
`0x02`, 8 bits), and the frame of `0x400001` open. -/
theorem operation_start_finalizes_open_frame (w : writer_frames) (sf : std_frame_element)
    (e : operation_event) (hopen : w.pimpl.std_frame = some sf)
    (hacc : w.pimpl.cont.accepts) :
    ((w.visit (event.operation e)).thrown = none ∧
      (w.visit (event.operation e)).state.pimpl.cont.frames =
        w.pimpl.cont.frames ++ [sf.frm] ∧
      (w.visit (event.operation e)).state.pimpl.std_frame =
        some ⟨⟨some ⟨e.addr, e.tid, e.bytes, ⟨[]⟩, ⟨[]⟩⟩, none, none⟩⟩) ∧
    ((writer_frames.initial.visit_all sample.scenario).thrown = none ∧
      (writer_frames.initial.visit_all sample.scenario).state.pimpl.cont.frames =
        [⟨some ⟨0x400000, 1, [0x90],
            ⟨[⟨⟨some ⟨0x1000⟩, none⟩, 8, ⟨true, false, false, false⟩, ⟨true⟩, [0x01]⟩]⟩,
            ⟨[⟨⟨some ⟨0x1000⟩, none⟩, 8, ⟨false, true, false, false⟩, ⟨true⟩, [0x02]⟩]⟩⟩,
          none, none⟩] ∧
      (writer_frames.initial.visit_all sample.scenario).state.pimpl.std_frame =
        some ⟨⟨some ⟨0x400001, 1, [0x91], ⟨[]⟩, ⟨[]⟩⟩, none, none⟩⟩) := by
  refine ⟨?_, by decide, by decide, by decide⟩
  rw [visit_operation_open w sf e hopen hacc, add_of_accepts _ _ hacc]
  exact ⟨rfl, rfl, rfl⟩

/-- Witness of C2: the second `OperationStart` of the scenario arriving at the
writer that holds the frame of the first. -/
theorem operation_start_finalizes_open_frame_witness :
    sample.open_writer.pimpl.std_frame = some sample.open_frame ∧
    sample.open_writer.pimpl.cont.accepts ∧
    (sample.open_writer.visit (event.operation ⟨0x400001, 1, [0x91]⟩)).thrown = none ∧
    (sample.open_writer.visit (event.operation ⟨0x400001, 1, [0x91]⟩)).state.pimpl.cont.frames =
      sample.open_writer.pimpl.cont.frames ++ [sample.open_frame.frm] ∧
    (sample.open_writer.visit (event.operation ⟨0x400001, 1, [0x91]⟩)).state.pimpl.std_frame =
      some ⟨⟨some ⟨0x400001, 1, [0x91], ⟨[]⟩, ⟨[]⟩⟩, none, none⟩⟩ :=
  ⟨by decide, by decide,
    (operation_start_finalizes_open_frame sample.open_writer sample.open_frame
      ⟨0x400001, 1, [0x91]⟩ (by decide) (by decide)).1⟩

/-- C8: teardown with no open frame appends nothing to the sink; teardown with
an open frame whose append the sink accepts appends exactly that frame, once,
with the operands accumulated so far, to the sink while it is not yet closed,
and the close is applied to the sink that already holds the frame; afterwards
no frame is open. -/
theorem teardown_flushes_open_frame (w : writer_frames) :
    (w.pimpl.std_frame = none → w.destroy.pimpl.cont.frames = w.pimpl.cont.frames) ∧
    (∀ sf, w.pimpl.std_frame = some sf → w.pimpl.cont.accepts →
      w.destroy.pimpl.cont.frames = w.pimpl.cont.frames ++ [sf.frm] ∧
      (sf.finish w.pimpl.cont).thrown = none ∧
      (sf.finish w.pimpl.cont).state.frames = w.pimpl.cont.frames ++ [sf.frm] ∧
      (sf.finish w.pimpl.cont).state.finished = w.pimpl.cont.finished ∧
      w.destroy.pimpl.cont = (sf.finish w.pimpl.cont).state.finish.state ∧
      (w.pimpl.cont.finish_fault = false → w.destroy.pimpl.cont.finished = true)) ∧
    w.destroy.pimpl.std_frame = none := by
  refine ⟨destroy_frames_idle w, ?_, ?_⟩
  · intro sf hsf hacc
    have hd := destroy_frames_open w sf hsf hacc
    refine ⟨hd.1, ?_, ?_, ?_, ?_, ?_⟩
    · simp [std_frame_element.finish, add_of_accepts _ _ hacc]
    · simp [std_frame_element.finish, add_of_accepts _ _ hacc]
    · simp [std_frame_element.finish, add_of_accepts _ _ hacc]
    · simpa [std_frame_element.finish] using hd.2
    · intro hff
      rw [hd.2, add_of_accepts _ _ hacc]
      simp [container_type.finish, hff]
  · simp only [writer_frames.destroy]
    split
    · rfl
    · split <;> rfl

/-- Witness of C8: teardown of the writer of a fresh session and of the writer
that holds the frame of the first instruction of the scenario. -/
theorem teardown_flushes_open_frame_witness :
    writer_frames.initial.pimpl.std_frame = none ∧
    writer_frames.initial.destroy.pimpl.cont.frames = [] ∧
    sample.open_writer.pimpl.std_frame = some sample.open_frame ∧
    sample.open_writer.pimpl.cont.accepts ∧
    sample.open_writer.destroy.pimpl.cont.frames = [sample.open_frame.frm] :=
  ⟨rfl, (teardown_flushes_open_frame writer_frames.initial).1 rfl, by decide, by decide,
    ((teardown_flushes_open_frame sample.open_writer).2.1 sample.open_frame
      (by decide) (by decide)).1⟩

/-! ## The frame dispatcher (section 4.4) -/

/-- C9: for every accumulator state and every `ModuleLoad(name, low, high)`,
the visit leaves the open instruction frame as it was and, when the sink
accepts the append, appends exactly one frame, the module load frame of
`name`, `low` and `high`. -/
theorem module_load_appended_immediately (w : writer_frames) (e : modload_event) :
    (w.visit (event.modload e)).state.pimpl.std_frame = w.pimpl.std_frame ∧
    (w.pimpl.cont.accepts →
      (w.visit (event.modload e)).thrown = none ∧
      (w.visit (event.modload e)).state.pimpl.cont.frames =
        w.pimpl.cont.frames ++ [⟨none, none, some ⟨e.name, e.low, e.high⟩⟩]) := by
  refine ⟨rfl, fun hacc => ?_⟩
  simp [writer_frames.visit, writer_frames.visit_modload, add_of_accepts _ _ hacc,
    frame.empty, frame.mutable_modload_frame]

/-- Witness of C9: a module load arriving while the first instruction of the
scenario is open. -/
theorem module_load_appended_immediately_witness :
    sample.open_writer.pimpl.cont.accepts ∧
    (sample.open_writer.visit (event.modload ⟨"libc.so", 0x7000, 0x8000⟩)).state.pimpl.std_frame =
      some sample.open_frame ∧
    (sample.open_writer.visit (event.modload ⟨"libc.so", 0x7000, 0x8000⟩)).thrown = none ∧
    (sample.open_writer.visit
        (event.modload ⟨"libc.so", 0x7000, 0x8000⟩)).state.pimpl.cont.frames =
      sample.open_writer.pimpl.cont.frames ++
        [⟨none, none, some ⟨"libc.so", 0x7000, 0x8000⟩⟩] :=
  ⟨by decide,
    ((module_load_appended_immediately sample.open_writer ⟨"libc.so", 0x7000, 0x8000⟩).1).trans
      (by decide),
    (module_load_appended_immediately sample.open_writer ⟨"libc.so", 0x7000, 0x8000⟩).2
      (by decide)⟩

/-- C10: for every accumulator state and every `SystemCall(addr, tid, number,
args)`, the visit leaves the open instruction frame as it was and, when the
sink accepts the append, appends exactly one frame, the system call frame with
that address, thread id and number, whose argument list is `args`, element for
element, in the same order and of the same length. -/
theorem system_call_appended_immediately (w : writer_frames) (e : syscall_event) :
    (w.visit (event.syscall e)).state.pimpl.std_frame = w.pimpl.std_frame ∧
    (w.pimpl.cont.accepts →
      (w.visit (event.syscall e)).thrown = none ∧
      (w.visit (event.syscall e)).state.pimpl.cont.frames =
        w.pimpl.cont.frames ++ [⟨none, some ⟨e.addr, e.tid, e.number, ⟨e.args⟩⟩, none⟩]) := by
  refine ⟨rfl, fun hacc => ?_⟩
  simp [writer_frames.visit, writer_frames.visit_syscall, add_of_accepts _ _ hacc,
    frame.empty, frame.mutable_syscall_frame, syscall_arguments]

/-- Witness of C10: a system call with three arguments arriving while the
first instruction of the scenario is open. -/
theorem system_call_appended_immediately_witness :
    sample.open_writer.pimpl.cont.accepts ∧
    (sample.open_writer.visit (event.syscall ⟨0x400000, 1, 4, [1, 0x2000, 12]⟩)).state.pimpl.std_frame =
      some sample.open_frame ∧
    (sample.open_writer.visit (event.syscall ⟨0x400000, 1, 4, [1, 0x2000, 12]⟩)).thrown = none ∧
    (sample.open_writer.visit
        (event.syscall ⟨0x400000, 1, 4, [1, 0x2000, 12]⟩)).state.pimpl.cont.frames =
      sample.open_writer.pimpl.cont.frames ++
        [⟨none, some ⟨0x400000, 1, 4, ⟨[1, 0x2000, 12]⟩⟩, none⟩] :=
  ⟨by decide,
    ((system_call_appended_immediately sample.open_writer
      ⟨0x400000, 1, 4, [1, 0x2000, 12]⟩).1).trans (by decide),
    (system_call_appended_immediately sample.open_writer ⟨0x400000, 1, 4, [1, 0x2000, 12]⟩).2
      (by decide)⟩

/-! ## The order of the frames in the sink (section 5) -/

theorem visit_all_concat (es : List event) (e : event) (w : writer_frames)
    (h : (w.visit_all es).thrown = none) :
    w.visit_all (es ++ [e]) = (w.visit_all es).state.visit e := by
  induction es generalizing w with
  | nil =>
    simp only [List.nil_append, writer_frames.visit_all]
    cases hv : (w.visit e).thrown <;> simp [hv.symm]
  | cons a rest ih =>
    simp only [List.cons_append, writer_frames.visit_all] at h ⊢
    cases hv : (w.visit a).thrown with
    | none =>
      simp only [hv] at h ⊢
      exact ih _ h
    | some err =>
      simp [hv] at h

theorem open_instruction_concat (es : List event) (e : event) :
    spec.open_instruction (es ++ [e]) =
      match e with
      | event.operation op => some (op, [])
      | _ => (spec.open_instruction es).map (fun p => (p.1, p.2 ++ [e])) := by
  unfold spec.open_instruction
  rw [List.reverse_append, List.reverse_singleton, List.singleton_append]
  cases e <;>
    simp [event.is_operation, List.dropWhile_cons, List.takeWhile_cons] <;>
    split <;> simp_all

theorem frames_at_concat_lt (es : List event) (e : event) (i : Nat) (h : i < es.length) :
    spec.frames_at (es ++ [e]) i = spec.frames_at es i := by
  unfold spec.frames_at
  rw [List.getElem?_append_left h, List.take_append_of_le_length (Nat.le_of_lt h)]

theorem frames_at_concat_length (es : List event) (e : event) :
    spec.frames_at (es ++ [e]) es.length =
      match e with
      | event.operation _ => spec.closing_frame es
      | _ => spec.immediate_frame e := by
  unfold spec.frames_at
  rw [List.getElem?_concat_length, List.take_left]
  cases e <;> rfl

theorem frames_at_length (es : List event) :
    spec.frames_at es es.length = spec.closing_frame es := by
  unfold spec.frames_at
  rw [List.getElem?_eq_none (Nat.le_refl _), List.take_length]

theorem body_concat (es : List event) (e : event) :
    (List.range (es ++ [e]).length).flatMap (spec.frames_at (es ++ [e])) =
      (List.range es.length).flatMap (spec.frames_at es) ++
        (match e with
          | event.operation _ => spec.closing_frame es
          | _ => spec.immediate_frame e) := by
  rw [List.length_append, List.length_singleton, List.range_succ, List.flatMap_append,
    List.flatMap_singleton, frames_at_concat_length]
  congr 1
  apply List.flatMap_congr
  intro i hi
  exact frames_at_concat_lt es e i (List.mem_range.mp hi)

theorem accepted_concat (es : List event) (e : event) :
    spec.accepted (es ++ [e]) = true ↔
      spec.accepted es = true ∧
        (e.is_operand = true → (spec.open_instruction es).isSome = true) := by
  unfold spec.accepted
  rw [List.length_append, List.length_singleton, List.range_succ, List.all_append,
    Bool.and_eq_true]
  apply and_congr
  · rw [List.all_eq_true, List.all_eq_true]
    constructor
    · intro h i hi
      have := h i hi
      rwa [List.getElem?_append_left (List.mem_range.mp hi),
        List.take_append_of_le_length (Nat.le_of_lt (List.mem_range.mp hi))] at this
    · intro h i hi
      rw [List.getElem?_append_left (List.mem_range.mp hi),
        List.take_append_of_le_length (Nat.le_of_lt (List.mem_range.mp hi))]
      exact h i hi
  · simp only [List.all_cons, List.all_nil, Bool.and_true, List.getElem?_concat_length,
      List.take_left]
    cases e.is_operand <;> simp

theorem visit_modload_accepted (w : writer_frames) (e : modload_event)
    (hacc : w.pimpl.cont.accepts) :
    w.visit (event.modload e) =
      ⟨{ w with pimpl := { w.pimpl with
          cont := (w.pimpl.cont.add (spec.module_load_frame e)).state } }, none⟩ := by
  simp [writer_frames.visit, writer_frames.visit_modload, add_of_accepts _ _ hacc,
    frame.empty, frame.mutable_modload_frame, spec.module_load_frame]

theorem visit_syscall_accepted (w : writer_frames) (e : syscall_event)
    (hacc : w.pimpl.cont.accepts) :
    w.visit (event.syscall e) =
      ⟨{ w with pimpl := { w.pimpl with
          cont := (w.pimpl.cont.add (spec.system_call_frame e)).state } }, none⟩ := by
  simp [writer_frames.visit, writer_frames.visit_syscall, add_of_accepts _ _ hacc,
    frame.empty, frame.mutable_syscall_frame, spec.system_call_frame, syscall_arguments]

/-- The open frame the writer holds for the open instruction of the
specification. -/
theorem opened_of_instruction (op : operation_event) (after : List event) :
    (std_frame_element.opened op (after.flatMap spec.pre_encodings)
      (after.flatMap spec.post_encodings)).frm = spec.instruction_frame op after := rfl

theorem boundary_frames_operand (e : event) (he : e.is_operand = true) (x : List frame) :
    (match e with
      | event.operation _ => x
      | _ => spec.immediate_frame e) = [] := by
  cases e <;> first | rfl | simp [event.is_operand] at he

theorem open_instruction_operand (es : List event) (e : event) (he : e.is_operand = true) :
    spec.open_instruction (es ++ [e]) =
      (spec.open_instruction es).map (fun p => (p.1, p.2 ++ [e])) := by
  rw [open_instruction_concat]
  cases e <;> first | rfl | simp [event.is_operand] at he

/-- The invariant of a run from the idle state over a reliable sink: no visit
fails, the sink holds the frames of the positions visited so far, the sink
stays reliable, and the open frame is that of the open instruction. -/
theorem run_invariant (es : List event) (w : writer_frames)
    (hidle : w.pimpl.std_frame = none) (hrel : w.pimpl.cont.reliable)
    (hacc : spec.accepted es = true) :
    (w.visit_all es).thrown = none ∧
    (w.visit_all es).state.pimpl.cont.frames =
      w.pimpl.cont.frames ++ (List.range es.length).flatMap (spec.frames_at es) ∧
    (w.visit_all es).state.pimpl.cont.reliable ∧
    (w.visit_all es).state.pimpl.std_frame =
      (spec.open_instruction es).map (fun p =>
        std_frame_element.opened p.1 (p.2.flatMap spec.pre_encodings)
          (p.2.flatMap spec.post_encodings)) := by
  induction es using List.reverseRecOn with
  | nil =>
    refine ⟨rfl, ?_, hrel, ?_⟩
    · simp [writer_frames.visit_all]
    · simpa [writer_frames.visit_all, spec.open_instruction] using hidle
  | append_singleton es e ih =>
    obtain ⟨hacc1, hop⟩ := (accepted_concat es e).mp hacc
    obtain ⟨h1, h2, h3, h4⟩ := ih hacc1
    have hac := accepts_of_reliable _ h3
    by_cases he : e.is_operand = true
    · have hsome := hop he
      rw [visit_all_concat es e w h1, body_concat, open_instruction_operand es e he,
        boundary_frames_operand e he]
      cases hoi : spec.open_instruction es with
      | none => simp [hoi] at hsome
      | some p =>
        rw [hoi] at h4
        rw [visit_operand_opened _ p.1 _ _ e h4 he]
        refine ⟨rfl, ?_, h3, ?_⟩
        · simpa using h2
        · simp [List.flatMap_append]
    · rw [visit_all_concat es e w h1, body_concat, open_instruction_concat]
      cases e with
      | operation op =>
        cases hoi : spec.open_instruction es with
        | none =>
          rw [hoi] at h4
          rw [visit_operation_idle _ op h4]
          refine ⟨rfl, ?_, h3, rfl⟩
          simp [h2, spec.closing_frame, hoi]
        | some p =>
          rw [hoi] at h4
          rw [visit_operation_open _ _ op h4 hac]
          refine ⟨rfl, ?_, reliable_after_add _ _ h3, rfl⟩
          simp only []
          rw [add_of_accepts _ _ hac]
          simp [h2, spec.closing_frame, hoi, opened_of_instruction]
      | modload m =>
        rw [visit_modload_accepted _ m hac]
        refine ⟨rfl, ?_, reliable_after_add _ _ h3, ?_⟩
        · simp only []
          rw [add_of_accepts _ _ hac]
          simp [h2, spec.immediate_frame]
        · simp only []
          rw [h4]
          cases spec.open_instruction es <;>
            simp [spec.pre_encodings, spec.post_encodings]
      | syscall c =>
        rw [visit_syscall_accepted _ c hac]
        refine ⟨rfl, ?_, reliable_after_add _ _ h3, ?_⟩
        · simp only []
          rw [add_of_accepts _ _ hac]
          simp [h2, spec.immediate_frame]
        · simp only []
          rw [h4]
          cases spec.open_instruction es <;>
            simp [spec.pre_encodings, spec.post_encodings]
      | other t =>
        refine ⟨rfl, ?_, h3, ?_⟩
        · simp [writer_frames.visit, writer_frames.visit_event, h2, spec.immediate_frame]
        · simp only [writer_frames.visit, writer_frames.visit_event]
          rw [h4]
          cases spec.open_instruction es <;>
            simp [spec.pre_encodings, spec.post_encodings]
      | read r => simp [event.is_operand] at he
      | write r => simp [event.is_operand] at he
      | load r => simp [event.is_operand] at he
      | store r => simp [event.is_operand] at he
      | read_flags r => simp [event.is_operand] at he
      | write_flags r => simp [event.is_operand] at he

theorem visit_all_concat_thrown (es : List event) (e : event) (w : writer_frames)
    (err : failure) (h : (w.visit_all es).thrown = some err) :
    (w.visit_all (es ++ [e])).thrown = some err := by
  induction es generalizing w with
  | nil => simp [writer_frames.visit_all] at h
  | cons a rest ih =>
    simp only [List.cons_append, writer_frames.visit_all] at h ⊢
    cases hv : (w.visit a).thrown with
    | none =>
      simp only [hv] at h ⊢
      exact ih _ h
    | some err2 =>
      simp only [hv] at h ⊢
      exact h

/-- A run from the idle state over a reliable sink that does not fail was fed
a well-formed stream. -/
theorem accepted_of_processed (es : List event) (w : writer_frames)
    (hidle : w.pimpl.std_frame = none) (hrel : w.pimpl.cont.reliable)
    (h : (w.visit_all es).thrown = none) : spec.accepted es = true := by
  induction es using List.reverseRecOn with
  | nil => rfl
  | append_singleton es e ih =>
    have hpre : (w.visit_all es).thrown = none := by
      cases hp : (w.visit_all es).thrown with
      | none => rfl
      | some err =>
        rw [visit_all_concat_thrown es e w err hp] at h
        exact absurd h (by simp)
    have hacc := ih hpre
    rw [accepted_concat]
    refine ⟨hacc, fun he => ?_⟩
    obtain ⟨-, -, -, h4⟩ := run_invariant es w hidle hrel hacc
    rw [visit_all_concat es e w hpre] at h
    cases hoi : spec.open_instruction es with
    | some p => rfl
    | none =>
      rw [hoi] at h4
      cases e <;>
        first
        | (simp [event.is_operand] at he; done)
        | (simp [writer_frames.visit, writer_frames.with_std_frame, h4] at h)

theorem expected_sink_eq (es : List event) :
    spec.expected_sink es =
      (List.range es.length).flatMap (spec.frames_at es) ++ spec.closing_frame es := by
  unfold spec.expected_sink
  rw [List.range_succ, List.flatMap_append, List.flatMap_singleton, frames_at_length]

theorem closing_frame_concat (es : List event) (e : event) :
    spec.closing_frame (es ++ [e]) =
      match e with
      | event.operation op => [spec.instruction_frame op []]
      | _ =>
        match spec.open_instruction es with
        | some p => [spec.instruction_frame p.1 (p.2 ++ [e])]
        | none => [] := by
  unfold spec.closing_frame
  rw [open_instruction_concat]
  cases e <;> first | rfl | (cases spec.open_instruction es <;> rfl)

/-- The frames of the specified sink that are no instruction frames are those
of the module loads and system calls, in arrival order. -/
theorem expected_sink_immediate (es : List event) :
    (spec.expected_sink es).filter (fun f => f.std_frame.isNone) =
      es.flatMap spec.immediate_frame := by
  rw [expected_sink_eq]
  have hclose : ∀ l : List event,
      (spec.closing_frame l).filter (fun f => f.std_frame.isNone) = [] := by
    intro l
    unfold spec.closing_frame
    cases spec.open_instruction l <;> simp [spec.instruction_frame]
  have himm : ∀ e : event,
      (spec.immediate_frame e).filter (fun f => f.std_frame.isNone) =
        spec.immediate_frame e := by
    intro e
    cases e <;>
      simp [spec.immediate_frame, spec.module_load_frame, spec.system_call_frame]
  rw [List.filter_append, hclose, List.append_nil]
  induction es using List.reverseRecOn with
  | nil => simp
  | append_singleton es e ih =>
    rw [body_concat, List.filter_append, ih, List.flatMap_append, List.flatMap_singleton]
    congr 1
    cases e <;> first | exact himm _ | (rw [hclose]; rfl)

/-- The instruction frames of the specified sink are one per `OperationStart`,
in the order of the `OperationStart` events. -/
theorem expected_sink_instructions (es : List event) :
    (spec.expected_sink es).filterMap (fun f => f.std_frame.map (fun sf => sf.address)) =
      es.filterMap spec.started_address := by
  rw [expected_sink_eq]
  have himm : ∀ e : event,
      (spec.immediate_frame e).filterMap (fun f => f.std_frame.map (fun sf => sf.address)) =
        [] := by
    intro e
    cases e <;>
      simp [spec.immediate_frame, spec.module_load_frame, spec.system_call_frame]
  induction es using List.reverseRecOn with
  | nil => simp [spec.closing_frame, spec.open_instruction]
  | append_singleton es e ih =>
    rw [body_concat, closing_frame_concat, List.filterMap_append, List.filterMap_append,
      List.filterMap_append]
    rw [List.filterMap_append] at ih
    cases e
    case operation op =>
      simp only []
      rw [ih]
      simp [spec.started_address, spec.instruction_frame]
    all_goals
      simp only [himm, List.append_nil, spec.started_address, List.filterMap_cons,
        List.filterMap_nil]
      rw [← ih]
      congr 1
      unfold spec.closing_frame
      cases spec.open_instruction es <;> simp [spec.instruction_frame]

/-- C7: for every event stream fed to a writer in the idle state over a sink
that accepts every append, the stream is processed without failure exactly
when it is well formed, and then the sink holds after the session end, behind
what it held before, exactly the frames of the specification: at the position
of each `ModuleLoad` or `SystemCall` the frame of that event, and at each
closing boundary (an `OperationStart` or the session end) the frame of the
instruction that was open.  The frames that are no instruction frames are
those of the module loads and system calls in arrival order, and the
instruction frames are one per `OperationStart`, in `OperationStart` order. -/
theorem frames_reach_sink_in_boundary_order (w : writer_frames) (es : List event)
    (hidle : w.pimpl.std_frame = none) (hrel : w.pimpl.cont.reliable) :
    ((w.visit_all es).thrown = none ↔ spec.accepted es = true) ∧
    ((w.visit_all es).thrown = none →
      (w.visit_all es).state.destroy.pimpl.cont.frames =
        w.pimpl.cont.frames ++ spec.expected_sink es) ∧
    (spec.expected_sink es).filter (fun f => f.std_frame.isNone) =
      es.flatMap spec.immediate_frame ∧
    (spec.expected_sink es).filterMap (fun f => f.std_frame.map (fun sf => sf.address)) =
      es.filterMap spec.started_address := by
  refine ⟨⟨accepted_of_processed es w hidle hrel,
      fun hacc => (run_invariant es w hidle hrel hacc).1⟩, ?_,
    expected_sink_immediate es, expected_sink_instructions es⟩
  intro hproc
  obtain ⟨-, h2, h3, h4⟩ :=
    run_invariant es w hidle hrel (accepted_of_processed es w hidle hrel hproc)
  rw [expected_sink_eq, ← List.append_assoc, ← h2]
  unfold spec.closing_frame
  cases hoi : spec.open_instruction es with
  | none =>
    rw [hoi] at h4
    simpa using destroy_frames_idle _ h4
  | some p =>
    rw [hoi] at h4
    rw [(destroy_frames_open _ _ h4 (accepts_of_reliable _ h3)).1]
    rfl

/-- Witness of C7: an interleaved stream on the writer of a fresh session; the
frame of the system call that arrived while the first instruction was open
precedes the frame of that instruction. -/
theorem frames_reach_sink_in_boundary_order_witness :
    writer_frames.initial.pimpl.std_frame = none ∧
    writer_frames.initial.pimpl.cont.reliable ∧
    (writer_frames.initial.visit_all sample.interleaved).thrown = none ∧
    (writer_frames.initial.visit_all sample.interleaved).state.destroy.pimpl.cont.frames =
      writer_frames.initial.pimpl.cont.frames ++ spec.expected_sink sample.interleaved ∧
    spec.expected_sink sample.interleaved =
      [⟨none, none, some ⟨"a.out", 0x400000, 0x401000⟩⟩,
       ⟨none, some ⟨0x400000, 1, 4, ⟨[1, 0x2000, 12]⟩⟩, none⟩,
       ⟨some ⟨0x400000, 1, [0x90],
          ⟨[⟨⟨some ⟨0x1000⟩, none⟩, 8, ⟨true, false, false, false⟩, ⟨true⟩, [0x01]⟩]⟩,
          ⟨[⟨⟨some ⟨0x1000⟩, none⟩, 8, ⟨false, true, false, false⟩, ⟨true⟩, [0x02]⟩]⟩⟩,
        none, none⟩,
       ⟨some ⟨0x400001, 1, [0x91],
          ⟨[⟨⟨none, some ⟨"AL"⟩⟩, 8, ⟨true, false, false, false⟩, ⟨true⟩, [0x78]⟩]⟩,
          ⟨[]⟩⟩,
        none, none⟩] :=
  ⟨rfl, by decide, by decide,
    (frames_reach_sink_in_boundary_order writer_frames.initial sample.interleaved rfl
      (by decide)).2.1 (by decide),
    by decide⟩

/-! ## The session metadata (section 4.5) -/

theorem find_dpos_first (argc : Nat) (pre tail : List String) (i : Nat)
    (hpre : "--" ∉ pre) : meta.find_dpos argc i (pre ++ "--" :: tail) = i + pre.length := by
  induction pre generalizing i with
  | nil => simp [meta.find_dpos]
  | cons a rest ih =>
    have ha : ¬ "--" = a := fun h => hpre (h ▸ List.mem_cons_self _ _)
    have hrest : "--" ∉ rest := fun h => hpre (List.mem_cons_of_mem _ h)
    rw [List.cons_append, meta.find_dpos, if_neg ha, ih (i + 1) hrest, List.length_cons]
    omega

theorem find_dpos_absent (argc : Nat) (argv : List String) (i : Nat)
    (h : "--" ∉ argv) : meta.find_dpos argc i argv = argc := by
  induction argv generalizing i with
  | nil => rfl
  | cons a rest ih =>
    have ha : ¬ "--" = a := fun e => h (e ▸ List.mem_cons_self _ _)
    have hrest : "--" ∉ rest := fun e => h (List.mem_cons_of_mem _ e)
    rw [meta.find_dpos, if_neg ha, ih (i + 1) hrest]

theorem argv_at_after_separator (pre rest : List String) (sep raw : String) :
    argv_at (pre ++ sep :: raw :: rest) (pre.length + 1) = cell.token raw := by
  have h : (pre ++ sep :: raw :: rest)[pre.length + 1]? = some raw := by
    rw [List.getElem?_append_right (Nat.le_succ _)]
    have h1 : pre.length + 1 - pre.length = 1 := by omega
    rw [h1]
    simp
  rw [argv_at, h]

theorem argv_at_outside (argv : List String) :
    argv_at argv (argv.length + 1) = cell.outside := by
  simp [argv_at, List.getElem?_eq_none]

theorem tracer_add_all (l : List String) (t : tracer) :
    l.foldl meta.tracer_add_args t = { t with args := t.args ++ l } := by
  induction l generalizing t with
  | nil => simp
  | cons a rest ih => simp [ih, meta.tracer_add_args]

theorem tracer_add_all_envp (l : List String) (t : tracer) :
    l.foldl meta.tracer_add_envp t = { t with envp := t.envp ++ l } := by
  induction l generalizing t with
  | nil => simp
  | cons a rest ih => simp [ih, meta.tracer_add_envp]

theorem target_add_all (l : List String) (t : target) :
    l.foldl meta.target_add_args t = { t with args := t.args ++ l } := by
  induction l generalizing t with
  | nil => simp
  | cons a rest ih => simp [ih, meta.target_add_args]

theorem target_add_all_envp (l : List String) (t : target) :
    l.foldl meta.target_add_envp t = { t with envp := t.envp ++ l } := by
  induction l generalizing t with
  | nil => simp
  | cons a rest ih => simp [ih, meta.target_add_envp]

/-- The metadata `create` assembles for an invocation with a separator that is
followed by a target that resolves, on a host where the digest, the file
statistics and the login name are available. -/
theorem create_with_separator (h : host) (pre rest envp : List String) (raw path d u : String)
    (st : fstats) (hpre : "--" ∉ pre) (hres : meta.resolve h raw = Except.ok path)
    (hdig : h.digest path = some d) (hstat : h.stat path = some st)
    (hlogin : h.login = some u) :
    meta.create h (pre ++ "--" :: raw :: rest) envp =
      Except.ok
        ⟨⟨"bpt", pre ++ "--" :: raw :: rest, envp, "1.0.0"⟩,
         ⟨path, raw :: rest, envp, d⟩, ⟨st.size, st.atime, st.mtime, st.ctime⟩,
         u, h.hostname, h.time⟩ := by
  have hd : meta.find_dpos (pre ++ "--" :: raw :: rest).length 0 (pre ++ "--" :: raw :: rest) =
      pre.length := by
    rw [find_dpos_first _ pre _ 0 hpre]
    omega
  have hdrop : List.drop (pre.length + 1) (pre ++ "--" :: raw :: rest) = raw :: rest := by
    rw [List.drop_append]
    rfl
  simp only [meta.create, hd, argv_at_after_separator, hres, bind, Except.bind, pure,
    Except.pure, meta.init_tracer, meta.init_target, meta.init_data, meta.md5sum,
    meta.init_fstats, hdig, hstat, hlogin, Nat.zero_le, if_true, List.drop_zero,
    tracer_add_all, tracer_add_all_envp, target_add_all, target_add_all_envp, hdrop]
  simp

/-- The failure of `create` on an invocation without a separator. -/
theorem create_without_separator (h : host) (argv envp : List String) (habs : "--" ∉ argv) :
    meta.create h argv envp = Except.error meta_failure.out_of_bounds := by
  simp only [meta.create, find_dpos_absent _ argv 0 habs, argv_at_outside, bind, Except.bind]

theorem search_roots_first (h : host) (raw : String) (roots : List String) (i : Nat)
    (d : String) (hd : roots[i]? = some d)
    (hex : h.exists (fs.absolute h.cwd raw d) = true)
    (hbefore : ∀ j e, j < i → roots[j]? = some e →
      h.exists (fs.absolute h.cwd raw e) = false) :
    meta.search_roots h raw roots = fs.absolute h.cwd raw d := by
  induction roots generalizing i with
  | nil => simp at hd
  | cons r rest ih =>
    cases i with
    | zero =>
      simp only [List.getElem?_cons_zero, Option.some.injEq] at hd
      subst hd
      simp [meta.search_roots, hex]
    | succ k =>
      have hr : h.exists (fs.absolute h.cwd raw r) = false :=
        hbefore 0 r (Nat.succ_pos k) (by simp)
      simp only [List.getElem?_cons_succ] at hd
      simp only [meta.search_roots, hr, Bool.false_eq_true, if_false]
      exact ih k hd (fun j e hj he => hbefore (j + 1) e (Nat.succ_lt_succ hj) (by simpa using he))

theorem search_roots_none (h : host) (raw : String) (roots : List String)
    (hnone : ∀ d ∈ roots, h.exists (fs.absolute h.cwd raw d) = false) :
    meta.search_roots h raw roots = raw := by
  induction roots with
  | nil => rfl
  | cons r rest ih =>
    have hr := hnone r (List.mem_cons_self _ _)
    simp only [meta.search_roots, hr, Bool.false_eq_true, if_false]
    exact ih (fun d hd => hnone d (List.mem_cons_of_mem _ hd))

/-- The resolution of a bare name that is missing from the working directory:
the search of the roots of `PATH`, then the existence check. -/
theorem resolve_bare_missing (h : host) (raw PATH : String)
    (hrel : fs.is_relative raw = true) (hmiss : h.exists raw = false)
    (hbare : fs.parent_path_empty raw = true) (hpath : h.PATH = some PATH) :
    meta.resolve h raw =
      if h.exists (meta.search_roots h raw ((split_roots PATH.data).map String.mk)) = true then
        Except.ok (meta.search_roots h raw ((split_roots PATH.data).map String.mk))
      else
        Except.error (meta_failure.not_found
          (meta.search_roots h raw ((split_roots PATH.data).map String.mk) ++ " not found")) := by
  simp only [meta.resolve, hrel, hmiss, hbare, hpath, if_true, Bool.false_eq_true, if_false, bind,
    Except.bind, pure, Except.pure]
  cases h.exists (meta.search_roots h raw ((split_roots PATH.data).map String.mk)) <;> simp

theorem is_absolute_append (a b : String) (ha : fs.is_absolute a = true) :
    fs.is_absolute (a ++ b) = true := by
  unfold fs.is_absolute at ha ⊢
  rw [String.data_append]
  cases hd : a.data with
  | nil => simp [hd] at ha
  | cons c rest => simpa [hd] using ha

theorem absolute_of_absolute (cwd p base : String) (hp : fs.is_absolute p = true) :
    fs.absolute cwd p base = p := by
  simp [fs.absolute, hp]

theorem is_absolute_join (a b : String) (ha : fs.is_absolute a = true) :
    fs.is_absolute (fs.join a b) = true := by
  unfold fs.join
  split
  · exact is_absolute_append a b ha
  · rw [String.append_assoc]
    exact is_absolute_append a _ ha

theorem join_data_ne_nil (a b : String) (ha : fs.is_absolute a = true) :
    (fs.join a b).data.isEmpty = false := by
  have h := is_absolute_join a b ha
  unfold fs.is_absolute at h
  cases hd : (fs.join a b).data with
  | nil => simp [hd] at h
  | cons c rest => rfl

/-- A relative path that exists under an absolute working directory still
exists once it has been made absolute. -/
theorem exists_absolute (h : host) (raw : String) (hrel : fs.is_relative raw = true)
    (hex : h.exists raw = true) (hcwd : fs.is_absolute h.cwd = true) :
    fs.absolute h.cwd raw h.cwd = fs.join h.cwd raw ∧
    h.exists (fs.join h.cwd raw) = true := by
  have hna : fs.is_absolute raw = false := by
    simpa [fs.is_relative] using hrel
  have habs : fs.absolute h.cwd raw h.cwd = fs.join h.cwd raw := by
    simp [fs.absolute, hna, hcwd]
  refine ⟨habs, ?_⟩
  unfold host.exists at hex ⊢
  rw [habs] at hex
  rw [absolute_of_absolute _ _ _ (is_absolute_join _ _ hcwd), join_data_ne_nil _ _ hcwd]
  simp only [Bool.and_eq_true] at hex
  simpa using hex.2

/-- C11 (the code departs from the claim): whenever `create` succeeds on an
invocation `pre ++ "--" :: raw :: rest` whose first separator follows `pre`,
the tracer argument list it records is the whole argument vector, separator and
target tokens included, and not the tokens `pre` before the separator:
`init_data` runs to the terminating null pointer and ignores the count `dpos`
that `create` hands to `init_tracer`. -/
theorem tracer_arguments_are_whole_argv (h : host) (pre rest envp : List String)
    (raw path d u : String) (st : fstats) (hpre : "--" ∉ pre)
    (hres : meta.resolve h raw = Except.ok path) (hdig : h.digest path = some d)
    (hstat : h.stat path = some st) (hlogin : h.login = some u) :
    (meta.create h (pre ++ "--" :: raw :: rest) envp).map (fun m => m.tracer.args) =
      Except.ok (pre ++ "--" :: raw :: rest) ∧
    pre ++ "--" :: raw :: rest ≠ pre := by
  rw [create_with_separator h pre rest envp raw path d u st hpre hres hdig hstat hlogin]
  refine ⟨rfl, fun hne => ?_⟩
  have hlen := congrArg List.length hne
  simp at hlen

/-- Witness of C11: `pin -t bpt.so -- /bin/ls -l -- x` on the sample host. -/
theorem tracer_arguments_are_whole_argv_witness :
    "--" ∉ ["pin", "-t", "bpt.so"] ∧
    meta.resolve sample.host "/bin/ls" = Except.ok "/bin/ls" ∧
    (meta.create sample.host (["pin", "-t", "bpt.so"] ++ "--" :: "/bin/ls" :: ["-l", "--", "x"])
        ["HOME=/home/u"]).map (fun m => m.tracer.args) =
      Except.ok ["pin", "-t", "bpt.so", "--", "/bin/ls", "-l", "--", "x"] :=
  ⟨by decide, by decide,
    (tracer_arguments_are_whole_argv sample.host ["pin", "-t", "bpt.so"] ["-l", "--", "x"]
      ["HOME=/home/u"] "/bin/ls" "/bin/ls" "d41d8cd9" "u" ⟨1024, 3, 2, 1⟩
      (by decide) (by decide) rfl rfl rfl).1⟩

/-- C12: when the first `"--"` of the argument vector is followed by a token
`raw` and the target resolves (and the digest, the file statistics and the login
name are available), `create` records as target arguments exactly the tokens
after the first `"--"`, in order, later `"--"` tokens included; position 0 is
the unresolved string `raw = argv[dpos + 1]`, `dpos` being the index of the
first `"--"`; the target path is the resolved path. -/
theorem target_arguments_follow_separator (h : host) (pre rest envp : List String)
    (raw path d u : String) (st : fstats) (hpre : "--" ∉ pre)
    (hres : meta.resolve h raw = Except.ok path) (hdig : h.digest path = some d)
    (hstat : h.stat path = some st) (hlogin : h.login = some u) :
    meta.find_dpos (pre ++ "--" :: raw :: rest).length 0 (pre ++ "--" :: raw :: rest) =
      pre.length ∧
    argv_at (pre ++ "--" :: raw :: rest) (pre.length + 1) = cell.token raw ∧
    ∃ m, meta.create h (pre ++ "--" :: raw :: rest) envp = Except.ok m ∧
      m.target.args = raw :: rest ∧
      m.target.args.head? = some raw ∧
      m.target.path = path := by
  refine ⟨?_, argv_at_after_separator pre rest "--" raw,
    _, create_with_separator h pre rest envp raw path d u st hpre hres hdig hstat hlogin,
    rfl, rfl, rfl⟩
  rw [find_dpos_first _ pre _ 0 hpre]
  omega

/-- Witness of C12: `pin -t bpt.so -- foo -l -- x` on the sample host, where
the bare name `foo` resolves to `/b/foo`. -/
theorem target_arguments_follow_separator_witness :
    "--" ∉ ["pin", "-t", "bpt.so"] ∧
    meta.resolve sample.host "foo" = Except.ok "/b/foo" ∧
    ∃ m, meta.create sample.host (["pin", "-t", "bpt.so"] ++ "--" :: "foo" :: ["-l", "--", "x"])
        [] = Except.ok m ∧
      m.target.args = ["foo", "-l", "--", "x"] ∧
      m.target.args.head? = some "foo" ∧
      m.target.path = "/b/foo" :=
  ⟨by decide, by decide,
    (target_arguments_follow_separator sample.host ["pin", "-t", "bpt.so"] ["-l", "--", "x"]
      [] "foo" "/b/foo" "d41d8cd9" "u" ⟨1024, 3, 2, 1⟩
      (by decide) (by decide) rfl rfl rfl).2.2⟩

/-- C13: for a bare relative name that does not exist relative to the working
directory and a `PATH` string cut at `:` and `;` into roots, the resolution
returns the candidate `absolute(name, root)` of the first root whose candidate
exists, and fails with `name not found` when no candidate exists; the candidate
of an absolute root is `root/name`; with `PATH = "/a:/b"` and `foo` existing
only at `/b/foo` the result is `/b/foo`. -/
theorem path_search_takes_first_match (h : host) (raw PATH : String)
    (hrel : fs.is_relative raw = true) (hmiss : h.exists raw = false)
    (hbare : fs.parent_path_empty raw = true) (hpath : h.PATH = some PATH) :
    (∀ (i : Nat) (d : String), ((split_roots PATH.data).map String.mk)[i]? = some d →
      h.exists (fs.absolute h.cwd raw d) = true →
      (∀ (j : Nat) (e : String), j < i → ((split_roots PATH.data).map String.mk)[j]? = some e →
        h.exists (fs.absolute h.cwd raw e) = false) →
      meta.resolve h raw = Except.ok (fs.absolute h.cwd raw d)) ∧
    ((∀ d ∈ (split_roots PATH.data).map String.mk,
        h.exists (fs.absolute h.cwd raw d) = false) →
      meta.resolve h raw = Except.error (meta_failure.not_found (raw ++ " not found"))) ∧
    (∀ d : String, fs.is_absolute d = true → d.data.getLast? ≠ some '/' →
      raw.data ≠ [] → fs.absolute h.cwd raw d = d ++ "/" ++ raw) ∧
    ((split_roots "/a:/b".data).map String.mk = ["/a", "/b"] ∧
      sample.host.exists "foo" = false ∧
      sample.host.files = ["/b/foo", "/bin/ls", "/home/u/tools/run"] ∧
      meta.resolve sample.host "foo" = Except.ok "/b/foo" ∧
      meta.resolve sample.host "bar" =
        Except.error (meta_failure.not_found "bar not found")) := by
  have hres := resolve_bare_missing h raw PATH hrel hmiss hbare hpath
  refine ⟨?_, ?_, ?_, by decide, by decide, by decide, by decide, by decide⟩
  · intro i d hd hex hbefore
    rw [hres, search_roots_first h raw _ i d hd hex hbefore, if_pos hex]
  · intro hnone
    rw [hres, search_roots_none h raw _ hnone, if_neg (by simp [hmiss])]
  · intro d hd hlast hraw
    have hna : fs.is_absolute raw = false := by
      simpa [fs.is_relative] using hrel
    have hdne : d.data ≠ [] := by
      intro hnil
      simp [fs.is_absolute, hnil] at hd
    simp [fs.absolute, hna, hd, fs.join, hdne, hraw, hlast]

/-- Witness of C13: the bare name `foo` on the sample host, where `/a/foo` is
missing and `/b/foo` exists. -/
theorem path_search_takes_first_match_witness :
    fs.is_relative "foo" = true ∧ sample.host.exists "foo" = false ∧
    fs.parent_path_empty "foo" = true ∧ sample.host.PATH = some "/a:/b" ∧
    ((split_roots "/a:/b".data).map String.mk)[1]? = some "/b" ∧
    sample.host.exists (fs.absolute sample.host.cwd "foo" "/b") = true ∧
    meta.resolve sample.host "foo" = Except.ok (fs.absolute sample.host.cwd "foo" "/b") ∧
    fs.absolute sample.host.cwd "foo" "/b" = "/b/foo" :=
  ⟨by decide, by decide, by decide, rfl, by decide, by decide,
    (path_search_takes_first_match sample.host "foo" "/a:/b" (by decide) (by decide)
      (by decide) rfl).1 1 "/b" (by decide) (by decide)
      (fun j e hj he => by
        have hj0 : j = 0 := by omega
        subst hj0
        have h0 : ((split_roots "/a:/b".data).map String.mk)[0]? = some "/a" := by decide
        rw [h0] at he
        rw [← Option.some.inj he]
        decide),
    by decide⟩

/-- C14 (the code departs from the claim): for every argument vector without a
`"--"` token `create` records nothing: `dpos` is `argc`, and the read of
`argv[dpos + 1]` lies beyond the terminating null pointer of the vector. -/
theorem create_without_separator_reads_outside (h : host) (argv envp : List String)
    (habs : "--" ∉ argv) :
    meta.find_dpos argv.length 0 argv = argv.length ∧
    argv_at argv (argv.length + 1) = cell.outside ∧
    meta.create h argv envp = Except.error meta_failure.out_of_bounds :=
  ⟨find_dpos_absent _ argv 0 habs, argv_at_outside argv,
    create_without_separator h argv envp habs⟩

/-- Witness of C14: `pin -t bpt.so /bin/ls` on the sample host. -/
theorem create_without_separator_reads_outside_witness :
    "--" ∉ sample.argv_without_separator ∧
    meta.create sample.host sample.argv_without_separator ["HOME=/home/u"] =
      Except.error meta_failure.out_of_bounds :=
  ⟨by decide,
    (create_without_separator_reads_outside sample.host sample.argv_without_separator
      ["HOME=/home/u"] (by decide)).2.2⟩

/-- C18: for an absolute path, for a relative path that exists relative to the
working directory and for a missing relative path with a directory component,
the resolution is the same for every value of `PATH`, unset included: an
absolute path resolves to itself when it exists and is not found otherwise, an
existing relative path resolves to its absolute form under the working
directory, a missing relative path with a directory component is not found. -/
theorem path_list_consulted_only_for_bare_missing_names (h : host) (raw : String)
    (p1 p2 : Option String)
    (hcase : fs.is_absolute raw = true ∨ h.exists raw = true ∨
      fs.parent_path_empty raw = false) :
    meta.resolve { h with PATH := p1 } raw = meta.resolve { h with PATH := p2 } raw ∧
    (fs.is_absolute raw = true →
      meta.resolve h raw =
        if h.exists raw = true then Except.ok raw
        else Except.error (meta_failure.not_found (raw ++ " not found"))) ∧
    (fs.is_relative raw = true → h.exists raw = true → fs.is_absolute h.cwd = true →
      meta.resolve h raw = Except.ok (fs.join h.cwd raw)) ∧
    (fs.is_relative raw = true → h.exists raw = false → fs.parent_path_empty raw = false →
      meta.resolve h raw = Except.error (meta_failure.not_found (raw ++ " not found"))) := by
  refine ⟨?_, ?_, ?_, ?_⟩
  · have he1 : ({ h with PATH := p1 } : host).exists = h.exists := rfl
    have he2 : ({ h with PATH := p2 } : host).exists = h.exists := rfl
    rcases hcase with habs | hex | hdir
    · simp [meta.resolve, fs.is_relative, habs, he1, he2]
    · by_cases hrel : fs.is_relative raw = true
      · simp [meta.resolve, hrel, hex, he1, he2]
      · simp [meta.resolve, hrel, he1, he2]
    · by_cases hrel : fs.is_relative raw = true
      · by_cases hex : h.exists raw = true
        · simp [meta.resolve, hrel, hex, he1, he2]
        · simp [meta.resolve, hrel, hex, hdir, he1, he2]
      · simp [meta.resolve, hrel, he1, he2]
  · intro habs
    simp only [meta.resolve, fs.is_relative, habs, Bool.not_true, Bool.false_eq_true, if_false,
      bind, Except.bind, pure, Except.pure]
    cases h.exists raw <;> simp
  · intro hrel hex hcwd
    obtain ⟨habs, hex2⟩ := exists_absolute h raw hrel hex hcwd
    simp [meta.resolve, hrel, hex, habs, hex2, bind, Except.bind, pure, Except.pure]
  · intro hrel hex hdir
    simp [meta.resolve, hrel, hex, hdir, bind, Except.bind, pure, Except.pure]

/-- Witness of C18: the relative path `tools/run`, which exists under the
working directory of the sample host, with `PATH` unset and with `PATH` set. -/
theorem path_list_consulted_only_for_bare_missing_names_witness :
    sample.host.exists "tools/run" = true ∧
    fs.is_relative "tools/run" = true ∧ fs.is_absolute sample.host.cwd = true ∧
    meta.resolve { sample.host with PATH := none } "tools/run" =
      meta.resolve { sample.host with PATH := some "/home/u/tools" } "tools/run" ∧
    meta.resolve sample.host "tools/run" = Except.ok "/home/u/tools/run" :=
  ⟨by decide, by decide, by decide,
    (path_list_consulted_only_for_bare_missing_names sample.host "tools/run" none
      (some "/home/u/tools") (Or.inr (Or.inl (by decide)))).1,
    ((path_list_consulted_only_for_bare_missing_names sample.host "tools/run" none none
      (Or.inr (Or.inl (by decide)))).2.2.1 (by decide) (by decide) (by decide)).trans
      (by decide)⟩

/-! ## Unsupported events, teardown failures and failure atomicity -/

/-- C15: for every event that no overload handles and every accumulator state,
the visit does not fail and leaves the sink and the open instruction frame as
they were; the event is reported on the error stream. -/
theorem unsupported_event_is_skipped (w : writer_frames) (text : String) :
    (w.visit (event.other text)).thrown = none ∧
    (w.visit (event.other text)).state.pimpl = w.pimpl ∧
    (w.visit (event.other text)).state.cerr =
      w.cerr ++ ["warning: skipped event " ++ text ++ " in frames protocol"] :=
  ⟨rfl, rfl, rfl⟩

/-- C16: for every accumulator state and every behaviour of the sink, teardown
completes and propagates no failure to the caller: a failing append of the
open frame and a failing close both leave the `try` block as an exception,
which the handler turns into a report on the error stream; the sink and the
frames it holds are those of the destructor, and no frame stays open. -/
theorem teardown_never_propagates (w : writer_frames) :
    w.teardown.thrown = none ∧
    w.teardown.state = w.destroy ∧
    w.teardown.state.pimpl.std_frame = none ∧
    (w.try_finish.thrown = none → w.teardown.state.cerr = w.cerr) ∧
    (w.try_finish.thrown ≠ none →
      w.teardown.state.cerr = w.cerr ++ ["finish failed with:"]) ∧
    (∀ sf, w.pimpl.std_frame = some sf → ¬ w.pimpl.cont.accepts →
      w.try_finish.thrown = some failure.sink_failure ∧
      w.teardown.state.pimpl.cont.frames = w.pimpl.cont.frames ∧
      w.teardown.state.pimpl.cont.finished = w.pimpl.cont.finished) ∧
    (w.pimpl.std_frame = none → w.pimpl.cont.finish_fault = true →
      w.try_finish.thrown = some failure.sink_failure ∧
      w.teardown.state.pimpl.cont = w.pimpl.cont) := by
  refine ⟨?_, ?_, ?_, ?_, ?_, ?_, ?_⟩
  · cases ht : w.try_finish.thrown <;> simp [writer_frames.teardown, ht]
  · unfold writer_frames.teardown writer_frames.destroy writer_frames.try_finish
    cases hsf : w.pimpl.std_frame with
    | none =>
      simp only []
      cases hf : w.pimpl.cont.finish.thrown <;> simp [hf]
    | some sf =>
      simp only []
      cases hf : (sf.finish w.pimpl.cont).thrown with
      | some err => simp [hf]
      | none =>
        simp only [hf]
        cases hg : (sf.finish w.pimpl.cont).state.finish.thrown <;> simp [hg]
  · cases ht : w.try_finish.thrown <;> simp [writer_frames.teardown, ht]
  · intro h
    simp [writer_frames.teardown, h]
  · intro h
    cases ht : w.try_finish.thrown with
    | none => exact absurd ht h
    | some err => simp [writer_frames.teardown, ht]
  · intro sf hsf hacc
    have hthrown : w.try_finish.thrown = some failure.sink_failure := by
      simp [writer_frames.try_finish, hsf, std_frame_element.finish, add_of_refused _ _ hacc]
    have hstate : w.try_finish.state = (w.pimpl.cont.add sf.frm).state := by
      simp [writer_frames.try_finish, hsf, std_frame_element.finish, add_of_refused _ _ hacc]
    refine ⟨hthrown, ?_, ?_⟩ <;>
      simp [writer_frames.teardown, hthrown, hstate, add_of_refused _ _ hacc]
  · intro hsf hff
    have hthrown : w.try_finish.thrown = some failure.sink_failure := by
      simp [writer_frames.try_finish, hsf, container_type.finish, hff]
    have hstate : w.try_finish.state = w.pimpl.cont := by
      simp [writer_frames.try_finish, hsf, container_type.finish, hff]
    refine ⟨hthrown, ?_⟩
    simp [writer_frames.teardown, hthrown, hstate]

/-- Witness of C16: teardown of a writer whose sink refuses the append of the
open frame. -/
theorem teardown_never_propagates_witness :
    sample.refusing_writer.pimpl.std_frame = some sample.open_frame ∧
    ¬ sample.refusing_writer.pimpl.cont.accepts ∧
    sample.refusing_writer.teardown.thrown = none ∧
    sample.refusing_writer.try_finish.thrown = some failure.sink_failure ∧
    sample.refusing_writer.teardown.state.pimpl.cont.frames = [] ∧
    sample.refusing_writer.teardown.state.cerr = ["finish failed with:"] :=
  ⟨by decide, by decide, (teardown_never_propagates sample.refusing_writer).1,
    ((teardown_never_propagates sample.refusing_writer).2.2.2.2.2.1 sample.open_frame
      (by decide) (by decide)).1,
    by decide, by decide⟩

/-- C20: when the sink refuses the append of the open frame during the visit
of an `OperationStart`, the failure reaches the caller, no new frame is opened
and nothing is appended; the writer still holds the old frame unchanged, and
that same frame is submitted again, and appended once the sink accepts, by the
next `OperationStart` and by teardown. -/
theorem refused_append_keeps_open_frame (w : writer_frames) (sf : std_frame_element)
    (e : operation_event) (hopen : w.pimpl.std_frame = some sf)
    (hrefused : ¬ w.pimpl.cont.accepts) :
    (w.visit (event.operation e)).thrown = some failure.sink_failure ∧
    (w.visit (event.operation e)).state.pimpl.std_frame = some sf ∧
    (w.visit (event.operation e)).state.pimpl.cont.frames = w.pimpl.cont.frames ∧
    (w.visit (event.operation e)).state.cerr = w.cerr ∧
    ((w.visit (event.operation e)).state.pimpl.cont.accepts →
      (∀ next : operation_event,
        ((w.visit (event.operation e)).state.visit (event.operation next)).thrown = none ∧
        ((w.visit (event.operation e)).state.visit
            (event.operation next)).state.pimpl.cont.frames =
          w.pimpl.cont.frames ++ [sf.frm]) ∧
      (w.visit (event.operation e)).state.destroy.pimpl.cont.frames =
        w.pimpl.cont.frames ++ [sf.frm]) := by
  have hv := visit_operation_refused w sf e hopen hrefused
  have hsf2 : (w.visit (event.operation e)).state.pimpl.std_frame = some sf := by
    rw [hv]
    exact hopen
  have hfr : (w.visit (event.operation e)).state.pimpl.cont.frames = w.pimpl.cont.frames := by
    rw [hv, add_of_refused _ _ hrefused]
  refine ⟨by rw [hv], hsf2, hfr, by rw [hv], fun hacc => ⟨fun next => ?_, ?_⟩⟩
  · rw [visit_operation_open _ sf next hsf2 hacc, add_of_accepts _ _ hacc]
    exact ⟨rfl, by rw [hfr]⟩
  · rw [(destroy_frames_open _ sf hsf2 hacc).1, hfr]

/-- Witness of C20: the second `OperationStart` of the scenario arriving at a
writer whose sink refuses one append. -/
theorem refused_append_keeps_open_frame_witness :
    sample.refusing_writer.pimpl.std_frame = some sample.open_frame ∧
    ¬ sample.refusing_writer.pimpl.cont.accepts ∧
    (sample.refusing_writer.visit (event.operation ⟨0x400001, 1, [0x91]⟩)).thrown =
      some failure.sink_failure ∧
    (sample.refusing_writer.visit
      (event.operation ⟨0x400001, 1, [0x91]⟩)).state.pimpl.std_frame =
      some sample.open_frame ∧
    (sample.refusing_writer.visit
      (event.operation ⟨0x400001, 1, [0x91]⟩)).state.destroy.pimpl.cont.frames =
      [sample.open_frame.frm] :=
  ⟨by decide, by decide,
    (refused_append_keeps_open_frame sample.refusing_writer sample.open_frame
      ⟨0x400001, 1, [0x91]⟩ (by decide) (by decide)).1,
    (refused_append_keeps_open_frame sample.refusing_writer sample.open_frame
      ⟨0x400001, 1, [0x91]⟩ (by decide) (by decide)).2.1,
    by decide⟩

/-! ## Flag operands and the invariant of the operand lists -/

/-- The descriptors of the flags loops, written out: a register operand with
the name of the flag, the extracted value as one byte, and the `bit_length`
that `create_operand` computes from the width field of the flag. -/
theorem flag_operands_written_out (s : std_frame_element) (e : flags_event) :
    (s.add_read_flags e).operands usage.R =
      s.operands usage.R ++
        (e.flags.filter (fun f => decide (f.effect &&& RD ≠ 0))).map
          (fun f =>
            ⟨⟨none, some ⟨f.name⟩⟩, if f.width = 0 then 8 else f.width,
              ⟨true, false, false, false⟩, ⟨true⟩, [flag_byte f e.bytes]⟩) ∧
    (s.add_write_flags e).operands usage.W =
      s.operands usage.W ++
        (e.flags.filter (fun f => decide (f.effect &&& WR ≠ 0))).map
          (fun f =>
            ⟨⟨none, some ⟨f.name⟩⟩, if f.width = 0 then 8 else f.width,
              ⟨false, true, false, false⟩, ⟨true⟩, [flag_byte f e.bytes]⟩) ∧
    (∀ f : flag, f.value e.bytes < 256 → (flag_byte f e.bytes).toNat = f.value e.bytes) := by
  have hr := (flags_loop_operands usage.R e.bytes e.flags s).1
  have hw := (flags_loop_operands usage.W e.bytes e.flags s).1
  rw [← add_read_flags_eq s e] at hr
  rw [← add_write_flags_eq s e] at hw
  refine ⟨?_, ?_, ?_⟩
  · rw [hr]
    congr 1
    simp only [spec.encode_flags, spec.decompose, List.map_map]
    apply congrArg₂ _ _ rfl
    funext f
    by_cases hw0 : f.width = 0 <;>
      simp [spec.encode_register, spec.encode_operand, flag_byte, hw0]
  · rw [hw]
    congr 1
    simp only [spec.encode_flags, spec.decompose, List.map_map]
    apply congrArg₂ _ _ rfl
    funext f
    by_cases hw0 : f.width = 0 <;>
      simp [spec.encode_register, spec.encode_operand, flag_byte, hw0]
  · intro f hf
    simp [flag_byte, UInt8.toNat, UInt8.ofNat, Fin.ofNat, UInt8.size]
    omega

/-- C17: for every flag emitted by a flags read or a flags write of a flag
table whose width fields are nonzero, the appended descriptor is a register
operand (no memory address) whose register name is the name of the flag,
whose value is exactly one byte, the extracted value of the flag (the
extracted value itself when it fits a byte), and whose `bit_length` is the
width field of the flag, not eight times the length of the one-byte value. -/
theorem flag_operands_carry_name_byte_and_width (s : std_frame_element) (e : flags_event)
    (hwidth : ∀ f ∈ e.flags, f.width ≠ 0) :
    (s.add_read_flags e).operands usage.R =
      s.operands usage.R ++
        (e.flags.filter (fun f => decide (f.effect &&& RD ≠ 0))).map
          (fun f =>
            ⟨⟨none, some ⟨f.name⟩⟩, f.width,
              ⟨true, false, false, false⟩, ⟨true⟩, [flag_byte f e.bytes]⟩) ∧
    (s.add_write_flags e).operands usage.W =
      s.operands usage.W ++
        (e.flags.filter (fun f => decide (f.effect &&& WR ≠ 0))).map
          (fun f =>
            ⟨⟨none, some ⟨f.name⟩⟩, f.width,
              ⟨false, true, false, false⟩, ⟨true⟩, [flag_byte f e.bytes]⟩) ∧
    (∀ f : flag, f.value e.bytes < 256 → (flag_byte f e.bytes).toNat = f.value e.bytes) := by
  obtain ⟨hr, hw, hb⟩ := flag_operands_written_out s e
  refine ⟨?_, ?_, hb⟩
  · rw [hr]
    congr 1
    apply List.map_congr_left
    intro f hf
    rw [if_neg (hwidth f (List.mem_of_mem_filter hf))]
  · rw [hw]
    congr 1
    apply List.map_congr_left
    intro f hf
    rw [if_neg (hwidth f (List.mem_of_mem_filter hf))]

/-- Witness of C17: the sample flag table, with a two-bit flag added, read and
written on the frame of the first instruction of the scenario. -/
theorem flag_operands_carry_name_byte_and_width_witness :
    (∀ f ∈ sample.flags_with_two_bits, f.width ≠ 0) ∧
    ((std_frame_element.create sample.start).add_read_flags
        ⟨sample.flags_with_two_bits, [0x41]⟩).operands usage.R =
      (std_frame_element.create sample.start).operands usage.R ++
        (sample.flags_with_two_bits.filter (fun f => decide (f.effect &&& RD ≠ 0))).map
          (fun f =>
            ⟨⟨none, some ⟨f.name⟩⟩, f.width,
              ⟨true, false, false, false⟩, ⟨true⟩, [flag_byte f [0x41]]⟩) ∧
    ((std_frame_element.create sample.start).add_read_flags
        ⟨sample.flags_with_two_bits, [0x41]⟩).operands usage.R =
      [⟨⟨none, some ⟨"CF"⟩⟩, 1, ⟨true, false, false, false⟩, ⟨true⟩, [1]⟩,
       ⟨⟨none, some ⟨"ZF"⟩⟩, 1, ⟨true, false, false, false⟩, ⟨true⟩, [1]⟩,
       ⟨⟨none, some ⟨"IOPL"⟩⟩, 2, ⟨true, false, false, false⟩, ⟨true⟩, [3]⟩] :=
  ⟨by decide,
    (flag_operands_carry_name_byte_and_width (std_frame_element.create sample.start)
      ⟨sample.flags_with_two_bits, [0x41]⟩ (by decide)).1,
    by decide⟩

theorem element_ok_iff (s : std_frame_element) :
    s.frm.operands_ok =
      ((s.operands usage.R).all operand_info.pre_ok &&
        (s.operands usage.W).all operand_info.post_ok) := by
  unfold frame.operands_ok std_frame_element.operands frame.mutable_std_frame
  cases s.frm.std_frame <;> rfl

/-- An element stays in order when descriptors of the right kind are appended
to its lists. -/
theorem element_ok_of_appended (s t : std_frame_element) (xs ys : List operand_info)
    (hR : t.operands usage.R = s.operands usage.R ++ xs)
    (hW : t.operands usage.W = s.operands usage.W ++ ys)
    (hx : xs.all operand_info.pre_ok = true) (hy : ys.all operand_info.post_ok = true)
    (hs : s.frm.operands_ok = true) : t.frm.operands_ok = true := by
  rw [element_ok_iff] at hs ⊢
  rw [hR, hW, List.all_append, List.all_append, hx, hy]
  simpa using hs

theorem encode_flags_pre_ok (e : flags_event) :
    (spec.encode_flags e usage.R).all operand_info.pre_ok = true := by
  simp only [spec.encode_flags, List.all_eq_true, List.mem_map]
  rintro oi ⟨t, -, rfl⟩
  rfl

theorem encode_flags_post_ok (e : flags_event) :
    (spec.encode_flags e usage.W).all operand_info.post_ok = true := by
  simp only [spec.encode_flags, List.all_eq_true, List.mem_map]
  rintro oi ⟨t, -, rfl⟩
  rfl

theorem add_read_ok (s : std_frame_element) (e : register_event)
    (hs : s.frm.operands_ok = true) : (s.add_read e).frm.operands_ok = true :=
  element_ok_of_appended s _ [spec.encode_register usage.R e.name e.bytes e.width] []
    (add_reg_operands s usage.R e.name e.bytes e.width)
    (by rw [List.append_nil]
        exact add_reg_operands_other s usage.R usage.W e.name e.bytes e.width (by decide))
    rfl rfl hs

theorem add_write_ok (s : std_frame_element) (e : register_event)
    (hs : s.frm.operands_ok = true) : (s.add_write e).frm.operands_ok = true :=
  element_ok_of_appended s _ [] [spec.encode_register usage.W e.name e.bytes e.width]
    (by rw [List.append_nil]
        exact add_reg_operands_other s usage.W usage.R e.name e.bytes e.width (by decide))
    (add_reg_operands s usage.W e.name e.bytes e.width)
    rfl rfl hs

theorem add_load_ok (s : std_frame_element) (e : memory_event)
    (hs : s.frm.operands_ok = true) : (s.add_load e).frm.operands_ok = true :=
  element_ok_of_appended s _ [spec.encode_memory usage.R e.addr e.bytes] []
    (add_mem_operands s usage.R e.addr e.bytes)
    (by rw [List.append_nil]
        exact add_mem_operands_other s usage.R usage.W e.addr e.bytes (by decide))
    rfl rfl hs

theorem add_store_ok (s : std_frame_element) (e : memory_event)
    (hs : s.frm.operands_ok = true) : (s.add_store e).frm.operands_ok = true :=
  element_ok_of_appended s _ [] [spec.encode_memory usage.W e.addr e.bytes]
    (by rw [List.append_nil]
        exact add_mem_operands_other s usage.W usage.R e.addr e.bytes (by decide))
    (add_mem_operands s usage.W e.addr e.bytes)
    rfl rfl hs

theorem add_read_flags_ok (s : std_frame_element) (e : flags_event)
    (hs : s.frm.operands_ok = true) : (s.add_read_flags e).frm.operands_ok = true := by
  have h := flags_loop_operands usage.R e.bytes e.flags s
  rw [← add_read_flags_eq s e] at h
  exact element_ok_of_appended s _ (spec.encode_flags e usage.R) [] h.1
    (by rw [List.append_nil]
        exact h.2 usage.W (by decide))
    (encode_flags_pre_ok e) rfl hs

theorem add_write_flags_ok (s : std_frame_element) (e : flags_event)
    (hs : s.frm.operands_ok = true) : (s.add_write_flags e).frm.operands_ok = true := by
  have h := flags_loop_operands usage.W e.bytes e.flags s
  rw [← add_write_flags_eq s e] at h
  exact element_ok_of_appended s _ [] (spec.encode_flags e usage.W)
    (by rw [List.append_nil]
        exact h.2 usage.R (by decide))
    h.1 rfl (encode_flags_post_ok e) hs

theorem add_keeps_frames_ok (c : container_type) (f : frame)
    (hc : c.frames.all frame.operands_ok = true) (hf : f.operands_ok = true) :
    (c.add f).state.frames.all frame.operands_ok = true := by
  by_cases hacc : c.accepts
  · rw [add_of_accepts c f hacc]
    simp only [List.all_append, hc, List.all_cons, hf, List.all_nil, Bool.and_self]
  · rw [add_of_refused c f hacc]
    exact hc

theorem with_std_frame_ok (w : writer_frames) (f : std_frame_element → std_frame_element)
    (hf : ∀ s : std_frame_element, s.frm.operands_ok = true → (f s).frm.operands_ok = true)
    (hinv : w.operands_ok = true) : (w.with_std_frame f).state.operands_ok = true := by
  unfold writer_frames.with_std_frame
  cases hsf : w.pimpl.std_frame with
  | none => exact hinv
  | some sf =>
    simp only [writer_frames.operands_ok, hsf, Bool.and_eq_true] at hinv ⊢
    exact ⟨hinv.1, hf sf hinv.2⟩

/-- Every visit preserves the invariant of the operand lists, whether it fails
or not. -/
theorem visit_keeps_operands_ok (w : writer_frames) (e : event)
    (hinv : w.operands_ok = true) : (w.visit e).state.operands_ok = true := by
  cases e with
  | read r => exact with_std_frame_ok w _ (fun s hs => add_read_ok s r hs) hinv
  | write r => exact with_std_frame_ok w _ (fun s hs => add_write_ok s r hs) hinv
  | load m => exact with_std_frame_ok w _ (fun s hs => add_load_ok s m hs) hinv
  | store m => exact with_std_frame_ok w _ (fun s hs => add_store_ok s m hs) hinv
  | read_flags f => exact with_std_frame_ok w _ (fun s hs => add_read_flags_ok s f hs) hinv
  | write_flags f => exact with_std_frame_ok w _ (fun s hs => add_write_flags_ok s f hs) hinv
  | other t => exact hinv
  | modload m =>
    simp only [writer_frames.operands_ok, Bool.and_eq_true] at hinv ⊢
    exact ⟨add_keeps_frames_ok _ _ hinv.1 rfl, hinv.2⟩
  | syscall c =>
    simp only [writer_frames.operands_ok, Bool.and_eq_true] at hinv ⊢
    exact ⟨add_keeps_frames_ok _ _ hinv.1 rfl, hinv.2⟩
  | operation op =>
    simp only [writer_frames.operands_ok, Bool.and_eq_true] at hinv
    cases hsf : w.pimpl.std_frame with
    | none =>
      rw [visit_operation_idle w op hsf]
      simp only [writer_frames.operands_ok, Bool.and_eq_true]
      exact ⟨hinv.1, rfl⟩
    | some sf =>
      rw [hsf] at hinv
      by_cases hacc : w.pimpl.cont.accepts
      · rw [visit_operation_open w sf op hsf hacc]
        simp only [writer_frames.operands_ok, Bool.and_eq_true]
        exact ⟨add_keeps_frames_ok _ _ hinv.1 hinv.2, rfl⟩
      · rw [visit_operation_refused w sf op hsf hacc]
        simp only [writer_frames.operands_ok, hsf, Bool.and_eq_true]
        exact ⟨add_keeps_frames_ok _ _ hinv.1 hinv.2, hinv.2⟩

theorem visit_all_keeps_operands_ok (es : List event) (w : writer_frames)
    (hinv : w.operands_ok = true) : (w.visit_all es).state.operands_ok = true := by
  induction es generalizing w with
  | nil => exact hinv
  | cons e rest ih =>
    have hstep := visit_keeps_operands_ok w e hinv
    rw [writer_frames.visit_all]
    cases hv : (w.visit e).thrown with
    | some err => exact hstep
    | none => exact ih _ hstep

/-- C19: at every state the writer reaches from a state that satisfies the
invariant, the idle writer of a fresh session with any scripted sink
behaviour in particular, every descriptor in the pre list of the open frame
and of every instruction frame in the sink is read and not written, every
descriptor in a post list is written and not read, and every descriptor
carries exactly one of a memory address and a register name. -/
theorem operand_lists_keep_their_usage (w : writer_frames) (es : List event)
    (hinv : w.operands_ok = true) :
    (∀ f ∈ (w.visit_all es).state.pimpl.cont.frames ++
          ((w.visit_all es).state.pimpl.std_frame.map (fun sf => sf.frm)).toList,
      ∀ sf, f.std_frame = some sf →
        (∀ oi ∈ sf.operand_pre_list.elem,
          oi.operand_usage.read = true ∧ oi.operand_usage.written = false ∧
          oi.operand_info_specific.mem_operand.isSome ≠
            oi.operand_info_specific.reg_operand.isSome) ∧
        (∀ oi ∈ sf.operand_post_list.elem,
          oi.operand_usage.written = true ∧ oi.operand_usage.read = false ∧
          oi.operand_info_specific.mem_operand.isSome ≠
            oi.operand_info_specific.reg_operand.isSome)) ∧
    (∀ faults ff, (⟨⟨⟨[], faults, ff, false⟩, none⟩, []⟩ : writer_frames).operands_ok = true) := by
  refine ⟨?_, fun faults ff => rfl⟩
  have h := visit_all_keeps_operands_ok es w hinv
  simp only [writer_frames.operands_ok, Bool.and_eq_true, List.all_eq_true] at h
  intro f hf sf hsf
  have hfok : f.operands_ok = true := by
    rw [List.mem_append] at hf
    rcases hf with hf | hf
    · exact h.1 f hf
    · cases hopen : (w.visit_all es).state.pimpl.std_frame with
      | none => simp [hopen] at hf
      | some s =>
        rw [hopen] at hf
        have h2 := h.2
        rw [hopen] at h2
        simp only [Option.map_some', Option.toList_some, List.mem_singleton] at hf
        rw [hf]
        exact h2
  simp only [frame.operands_ok, hsf, Bool.and_eq_true, List.all_eq_true] at hfok
  constructor
  · intro oi hoi
    have := hfok.1 oi hoi
    simp only [operand_info.pre_ok, operand_info.one_carrier, Bool.and_eq_true,
      Bool.not_eq_true', bne_iff_ne] at this
    exact ⟨this.1.1, this.1.2, this.2⟩
  · intro oi hoi
    have := hfok.2 oi hoi
    simp only [operand_info.post_ok, operand_info.one_carrier, Bool.and_eq_true,
      Bool.not_eq_true', bne_iff_ne] at this
    exact ⟨this.1.1, this.1.2, this.2⟩

/-- Witness of C19: the interleaved stream on the writer of a fresh session. -/
theorem operand_lists_keep_their_usage_witness :
    writer_frames.initial.operands_ok = true ∧
    (∀ f ∈ (writer_frames.initial.visit_all sample.interleaved).state.pimpl.cont.frames ++
          ((writer_frames.initial.visit_all sample.interleaved).state.pimpl.std_frame.map
            (fun sf => sf.frm)).toList,
      ∀ sf, f.std_frame = some sf →
        (∀ oi ∈ sf.operand_pre_list.elem,
          oi.operand_usage.read = true ∧ oi.operand_usage.written = false ∧
          oi.operand_info_specific.mem_operand.isSome ≠
            oi.operand_info_specific.reg_operand.isSome) ∧
        (∀ oi ∈ sf.operand_post_list.elem,
          oi.operand_usage.written = true ∧ oi.operand_usage.read = false ∧
          oi.operand_info_specific.mem_operand.isSome ≠
            oi.operand_info_specific.reg_operand.isSome)) ∧
    ((writer_frames.initial.visit_all sample.interleaved).state.pimpl.cont.frames).length = 3 :=
  ⟨rfl, (operand_lists_keep_their_usage writer_frames.initial sample.interleaved rfl).1,
    by decide⟩

end bpt
